import Mathlib

/-!
Shallow embedding of `src/server/src/QuickZipStream.ts` (the HFS quick ZIP
streamer).  JS numbers are modelled as `Nat` (all quantities involved are
non-negative integers; overflow behaviour of the `Buffer.write*` helpers is
modelled explicitly).  The Node `Readable` machinery is modelled by an explicit
state record threaded through the operations; `this.push(chunk)` appends to an
output byte list unless the stream has already ended (`push(null)` happened),
`this.push(null)` sets the `ended` flag, and a thrown exception (an
out-of-range `Buffer.write*`) sets the `errored` flag, after which the stalled
stream performs no further work.  The external CRC-32 library
(`crc32function(chunk, state)`) is kept abstract as a parameter
`crcFn : List Nat → Nat → Nat`; the call `crc32function('')` is `crcFn [] 0`
(the library's initial state defaults to 0).
-/

/-- `const ZIP64_LIMIT = 2**31 - 1` -/
def ZIP64_LIMIT : Nat := 2 ^ 31 - 1

/-- A JS `Date` as observed by the code: the calendar getters used by `ts2buf`
(`month` is 0-based like `getMonth()`, `day` is `getDate()`), plus `ms`, the
time value returned by `Number(date)` / `getTime()`. -/
structure JsDate where
  year : Nat
  month : Nat
  day : Nat
  hour : Nat
  minute : Nat
  second : Nat
  ms : Nat
deriving DecidableEq, Repr

/-- `interface ZipSource`.  `path` is modelled directly as its UTF-8 byte
sequence (`Buffer.from(path, 'utf8')`); `data` is the list of chunks the
deferred `getData()` stream will yield; `mode = 0` models an absent/falsy
`mode`. -/
structure ZipSource where
  path : List Nat
  sourcePath : Option String
  data : List (List Nat)
  size : Nat
  ts : JsDate
  mode : Nat
deriving DecidableEq, Repr

/-- `interface CrcCacheEntry { ts: Date, crc: number }` -/
structure CrcCacheEntry where
  ts : JsDate
  crc : Nat
deriving DecidableEq, Repr

/-- `const crcCache: Record<string, CrcCacheEntry>`, modelled as an
association list (newest binding first, as produced by assignment). -/
abbrev CrcCache := List (String × CrcCacheEntry)

/-- One element of `this.centralDir`. -/
structure CDEntry where
  size : Nat
  crc : Nat
  ts : JsDate
  pathAsBuffer : List Nat
  offset : Nat
  version : Nat
  extAttr : Nat
deriving DecidableEq, Repr

/-- The mutable state of a `QuickZipStream` together with the observable
output.  `out` is the byte sequence delivered to the consumer; `ended` records
that `push(null)` has happened (later pushes deliver nothing); `errored`
records that a `Buffer.write*` range check threw (the stream stalls). -/
structure St where
  dataWritten : Nat
  skip : Nat
  limit : Option Nat
  finished : Bool
  ended : Bool
  errored : Bool
  out : List Nat
  centralDir : List CDEntry
  numberOfFiles : Nat
  cache : CrcCache
deriving DecidableEq, Repr

def initSt (cache0 : CrcCache) : St :=
  { dataWritten := 0, skip := 0, limit := none, finished := false, ended := false
    errored := false, out := [], centralDir := [], numberOfFiles := 0, cache := cache0 }

/-- Little-endian byte encoding of `val` on `size` bytes (what the sequence of
`Buffer.write*` calls produces for an in-range value). -/
def toLEBytes (size val : Nat) : List Nat :=
  (List.range size).map (fun i => val / 256 ^ i % 256)

/-- `function buffer(pairs)`: the flat `size, value, size, value, …` array is
modelled as a list of `(size, value)` pairs (which makes the
`assert(pairs.length % 2 === 0)` structural).  Each `write*` call throws when
the value does not fit the field (`RangeError` in Node) and a width other than
1/2/4/8 throws `'unsupported'`; both are modelled as `Except.error`. -/
def buffer : List (Nat × Nat) → Except String (List Nat)
  | [] => .ok []
  | (size, val) :: rest =>
    if size = 1 ∨ size = 2 ∨ size = 4 ∨ size = 8 then
      if val < 256 ^ size then
        match buffer rest with
        | .ok bs => .ok (toLEBytes size val ++ bs)
        | .error e => .error e
      else .error "value out of range"
    else .error "unsupported"

/-- The bytes `buffer` produces when every field is in range. -/
def pairsBytes (pairs : List (Nat × Nat)) : List Nat :=
  (pairs.map (fun p => toLEBytes p.1 p.2)).flatten

/-- Decidable success condition of `buffer`. -/
def bufferOk (pairs : List (Nat × Nat)) : Bool :=
  pairs.all (fun p => decide ((p.1 = 1 ∨ p.1 = 2 ∨ p.1 = 4 ∨ p.1 = 8) ∧ p.2 < 256 ^ p.1))

/-- `function ts2buf(ts)`, the DOS time word:
`ts.getHours() << 11 | ts.getMinutes() << 5 | (ts.getSeconds() / 2) & 0x0F`
(`<<` binds tighter than `&`, which binds tighter than `|`; the fractional JS
division is truncated by `&`). -/
def dosTime (ts : JsDate) : Nat :=
  (ts.hour <<< 11) ||| (ts.minute <<< 5) ||| ((ts.second / 2) &&& 0x0F)

/-- `function ts2buf(ts)`, the DOS date word:
`((ts.getFullYear() - 1980) & 0x7F) << 9 | (ts.getMonth() + 1) << 5 | ts.getDate()`.
On 32-bit JS integers `x & 0x7F` equals `x` modulo 128 (also for the negative
differences arising from years before 1980), written here with `Int.emod`. -/
def dosDate (ts : JsDate) : Nat :=
  ((((ts.year : Int) - 1980).emod 128).toNat <<< 9) ||| ((ts.month + 1) <<< 5) ||| ts.day

/-- `function ts2buf(ts)` returns `[2, time, 2, date]`. -/
def ts2buf (ts : JsDate) : List (Nat × Nat) :=
  [(2, dosTime ts), (2, dosDate ts)]

/-- `earlyClose()`: `this.finished = true; this.push(null)`. -/
def earlyClose (s : St) : St :=
  { s with finished := true, ended := true }

/-- `this.push(chunk)`: bytes reach the consumer only while the stream has not
ended (a push after `push(null)` delivers nothing). -/
def pushOut (c : List Nat) (s : St) : St :=
  if s.ended then s else { s with out := s.out ++ c }

/-- The tail of `_push` after the skip window:
`lastBit = this.limit! < chunk.length` (false when `limit` is `undefined`),
truncation to `limit`, push, and `earlyClose()` when `lastBit`. -/
def pushEmit (c : List Nat) (s : St) : St :=
  match s.limit with
  | some l => if l < c.length then earlyClose (pushOut (c.take l) s) else pushOut c s
  | none => pushOut c s

/-- `_push(chunk)` for an already-built byte chunk: counts `dataWritten` on the
full chunk, then applies the skip window, then `pushEmit`.  No push happens on
an errored (stalled) stream. -/
def zipPush (chunk : List Nat) (s : St) : St :=
  if s.errored then s else
  let s := { s with dataWritten := s.dataWritten + chunk.length }
  if s.skip ≠ 0 then
    if chunk.length ≤ s.skip then { s with skip := s.skip - chunk.length }
    else pushEmit (chunk.drop s.skip) { s with skip := 0 }
  else pushEmit chunk s

/-- `_push(array)` for a `size, value` pair array: `buffer` may throw, which
stalls the stream (`errored`). -/
def zipPushPairs (pairs : List (Nat × Nat)) (s : St) : St :=
  if s.errored then s else
  match buffer pairs with
  | .ok bs => zipPush bs s
  | .error _ => { s with errored := true }

/-- `applyRange(start, end)`. -/
def applyRange (start stop : Nat) (s : St) : St :=
  if stop < start then earlyClose s
  else { s with skip := start, limit := some (stop - start + 1) }

/-- `const cache = sourcePath ? crcCache[sourcePath] : undefined` — note that
the empty string is falsy in JS. -/
def cacheLookup (cache : CrcCache) (sp : Option String) : Option CrcCacheEntry :=
  match sp with
  | some p => if p = "" then none else cache.lookup p
  | none => none

/-- `const cacheHit = Number(cache?.ts) === Number(ts)` (false when the lookup
missed, since `Number(undefined)` is `NaN`). -/
def hitB (cache : CrcCache) (sp : Option String) (ts : JsDate) : Bool :=
  match cacheLookup cache sp with
  | some c => c.ts.ms == ts.ms
  | none => false

/-- `let crc = cacheHit ? cache!.crc : crc32function('')`. -/
def crcInit (crcFn : List Nat → Nat → Nat) (cache : CrcCache) (sp : Option String)
    (ts : JsDate) : Nat :=
  match cacheLookup cache sp with
  | some c => if c.ts.ms == ts.ms then c.crc else crcFn [] 0
  | none => crcFn [] 0

/-- `const extAttr = !mode ? 0 : (mode | 0x8000) * 0x10000`. -/
def extAttrOf (mode : Nat) : Nat :=
  if mode = 0 then 0 else (mode ||| 0x8000) * 0x10000

/-- `if (sourcePath) crcCache[sourcePath] = { ts, crc }` (empty string falsy). -/
def cacheWrite (cache : CrcCache) (sp : Option String) (ts : JsDate) (crc : Nat) : CrcCache :=
  match sp with
  | some p => if p = "" then cache else (p, ⟨ts, crc⟩) :: cache
  | none => cache

/-- The local file header pair array pushed by `_read` (signature, version,
flags `0x08`, store compression, timestamp, zero crc/size/size, path length,
zero extra length). -/
def localHeader (f : ZipSource) (version : Nat) : List (Nat × Nat) :=
  [(4, 0x04034b50), (2, version), (2, 0x08), (2, 0)] ++ ts2buf f.ts ++
  [(4, 0), (4, 0), (4, 0), (2, f.path.length), (2, 0)]

/-- The `data.on('data', …)` / `data.on('end', …)` loop: each chunk is
`_push`ed, the running crc is updated unless the cache was trusted, and the
source stream is destroyed (so `'end'` never fires) once the zip stream is
finished.  Returns the state, the final running crc, and whether `'end'`
fired. -/
def streamData (crcFn : List Nat → Nat → Nat) (cacheHit : Bool) :
    List (List Nat) → Nat → St → St × Nat × Bool
  | [], crc, s => (s, crc, true)
  | c :: rest, crc, s =>
    let s := zipPush c s
    let crc := if cacheHit then crc else crcFn c crc
    if s.finished then (s, crc, false)
    else streamData crcFn cacheHit rest crc s

/-- One `_read()` step that found a source `f` (either from the
`consumedCalculating` replay queue or from the walker).  Mirrors lines 94-151
of the source: header, path, the cached-checksum skip branch, then the data
stream; on `'end'` the central directory entry is queued and the cache is
written back. -/
def readFile (crcFn : List Nat → Nat → Nat) (f : ZipSource) (s : St) : St :=
  if s.finished ∨ s.errored then s else
  let s := { s with numberOfFiles := s.numberOfFiles + 1 }
  let pathAsBuffer := f.path
  let offset := s.dataWritten
  let version := 20
  let s := zipPushPairs (localHeader f version) s
  let s := zipPush pathAsBuffer s
  if s.finished then s else
  if s.errored then s else
  let hit := hitB s.cache f.sourcePath f.ts
  let crc := crcInit crcFn s.cache f.sourcePath f.ts
  let extAttr := extAttrOf f.mode
  let cde : CDEntry :=
    { size := f.size, crc := crc, ts := f.ts, pathAsBuffer := pathAsBuffer
      offset := offset, version := version, extAttr := extAttr }
  if f.size ≤ s.skip ∧ hit = true then
    { s with skip := s.skip - f.size, dataWritten := s.dataWritten + f.size
             centralDir := s.centralDir ++ [cde] }
  else
    match streamData crcFn hit f.data crc s with
    | (s, crcF, ended) =>
      if ended then
        { s with centralDir := s.centralDir ++ [{ cde with crc := crcF }]
                 cache := cacheWrite s.cache f.sourcePath f.ts crcF }
      else s

/-- `if (size > ZIP64_LIMIT) extra.push(size, size); if (offset > ZIP64_LIMIT) extra.push(offset)`. -/
def zip64Extra (e : CDEntry) : List Nat :=
  (if ZIP64_LIMIT < e.size then [e.size, e.size] else []) ++
  (if ZIP64_LIMIT < e.offset then [e.offset] else [])

/-- `buffer(!extra.length ? [] : [2,1, 2,8*extra.length, ...extra.map(x=>[8,x]).flat()])`. -/
def cdExtraPairs (extra : List Nat) : List (Nat × Nat) :=
  if extra = [] then []
  else (2, 1) :: (2, 8 * extra.length) :: extra.map (fun x => (8, x))

/-- `if (extraData.length && version < 45) version = 45`. -/
def cdVersion (e : CDEntry) (extraDataLen : Nat) : Nat :=
  if extraDataLen ≠ 0 ∧ e.version < 45 then 45 else e.version

/-- The classic 32-bit size field: sentinel `0xffffffff` on overflow. -/
def cdSizeField (e : CDEntry) : Nat :=
  if ZIP64_LIMIT < e.size then 0xffffffff else e.size

/-- The classic 32-bit offset field: sentinel `0xffffffff` on overflow. -/
def cdOffsetField (e : CDEntry) : Nat :=
  if ZIP64_LIMIT < e.offset then 0xffffffff else e.offset

/-- The central directory record pair array of one entry. -/
def cdRecord (e : CDEntry) (version sizeF offF extraLen : Nat) : List (Nat × Nat) :=
  [(4, 0x02014b50), (2, version), (2, version), (2, 0x08), (2, 0)] ++ ts2buf e.ts ++
  [(4, e.crc), (4, sizeF), (4, sizeF), (2, e.pathAsBuffer.length), (2, extraLen),
   (2, 0), (2, 0), (2, 0), (4, e.extAttr), (4, offF)]

/-- The loop body of `closeArchive` for one central directory entry. -/
def closeEntry (s : St) (e : CDEntry) : St :=
  if s.errored then s else
  match buffer (cdExtraPairs (zip64Extra e)) with
  | .error _ => { s with errored := true }
  | .ok extraData =>
    let version := cdVersion e extraData.length
    let s := zipPushPairs (cdRecord e version (cdSizeField e) (cdOffsetField e) extraData.length) s
    let s := zipPush e.pathAsBuffer s
    zipPush extraData s

/-- The zip64 end-of-central-directory record pair array. -/
def zip64End (n centralSize centralOffset : Nat) : List (Nat × Nat) :=
  [(4, 0x06064b50), (8, 44), (2, 45), (2, 45), (4, 0), (4, 0),
   (8, n), (8, n), (8, centralSize), (8, centralOffset)]

/-- The zip64 end-of-central-directory locator pair array. -/
def zip64Locator (after : Nat) : List (Nat × Nat) :=
  [(4, 0x07064b50), (4, 0), (8, after), (4, 1)]

/-- The classic end-of-central-directory record pair array; the entry-count
fields are 2-byte fields holding `this.numberOfFiles`. -/
def eocd (numberOfFiles centralSize centralOffset : Nat) : List (Nat × Nat) :=
  [(4, 0x06054b50), (4, 0), (2, numberOfFiles), (2, numberOfFiles),
   (4, centralSize), (4, centralOffset), (2, 0)]

/-- The end-of-archive records `closeArchive` pushes after the central
directory: the zip64 end record and locator exactly when the central
directory's starting offset overflows (in which case the classic record gets
the sentinel offset), then the classic end record. -/
def endRecords (n numberOfFiles centralSize centralOffset after : Nat) :
    List (List (Nat × Nat)) :=
  (if ZIP64_LIMIT < centralOffset then
    [zip64End n centralSize centralOffset, zip64Locator after] else []) ++
  [eocd numberOfFiles centralSize
    (if ZIP64_LIMIT < centralOffset then 0xFFFFFFFF else centralOffset)]

/-- `closeArchive()`: central directory records, optional zip64 end records,
classic end record, then `push(null)` (which is not reached if an encoding
exception stalled the stream). -/
def closeArchive (s : St) : St :=
  let s0 := { s with finished := true }
  let centralOffset := s0.dataWritten
  let s1 := s0.centralDir.foldl closeEntry s0
  let n := s1.centralDir.length
  let after := s1.dataWritten
  let centralSize := after - centralOffset
  let s2 := (endRecords n s1.numberOfFiles centralSize centralOffset after).foldl
    (fun s ps => zipPushPairs ps s) s1
  if s2.errored then s2 else { s2 with ended := true }

/-- The driver loop over the source sequence: each demand-driven `_read()`
that finds the stream neither finished nor stalled processes the next source
(`readFile` itself re-checks and is the identity once the stream is finished
or stalled). -/
def drainFiles (crcFn : List Nat → Nat → Nat) : List ZipSource → St → St
  | [], s => s
  | f :: rest, s => drainFiles crcFn rest (readFile crcFn f s)

/-- A full drain: consume every source, then (unless the stream already
finished or stalled) `closeArchive`. -/
def zipDrain (crcFn : List Nat → Nat → Nat) (files : List ZipSource) (s : St) : St :=
  let s1 := drainFiles crcFn files s
  if s1.finished ∨ s1.errored then s1 else closeArchive s1

/-- Unranged full drain from a fresh stream over walker `files`. -/
def runUnranged (crcFn : List Nat → Nat → Nat) (cache0 : CrcCache)
    (files : List ZipSource) : St :=
  zipDrain crcFn files (initSt cache0)

/-- Full drain after `applyRange(start, stop)` on a fresh stream. -/
def runRanged (crcFn : List Nat → Nat → Nat) (cache0 : CrcCache)
    (files : List ZipSource) (start stop : Nat) : St :=
  zipDrain crcFn files (applyRange start stop (initSt cache0))

/-- The size formula of `calculateSize` (lines 78-91) over the consumed
sources: per file the local header + path + data cost and the central
directory record cost (with the zip64 extra field cost
`extraLength && (2+2 + extraLength*8)`), plus the zip64 end records when the
central directory offset overflows, plus the classic end record. -/
def calcTotal (consumed : List ZipSource) : Nat :=
  let acc := consumed.foldl
    (fun (acc : Nat × Nat) f =>
      let pathSize := f.path.length
      let extraLength := (if ZIP64_LIMIT < f.size then 2 else 0) +
        (if ZIP64_LIMIT < acc.1 then 1 else 0)
      let extraDataSize := if extraLength = 0 then 0 else 2+2 + extraLength * 8
      (acc.1 + 4+2+2+2+ 4+4+4+4+ 2+2 + pathSize + f.size,
       acc.2 + 4+2+2+2+2+ 4+4+4+4+ 2+2+2+2+2+ 4+4 + pathSize + extraDataSize))
    (0, 0)
  let centralOffset := acc.1
  let centralDirSize := acc.2 +
    (if ZIP64_LIMIT < centralOffset then 4+8+2+2+4+4+8+8+8+8+4+4+8+4 else 0) +
    (4+4+2+2+4+4+2)
  acc.1 + centralDirSize

/-- `calculateSize(howLong)`.  The wall clock is abstracted: `budget` is the
number of loop iterations whose deadline check `Date.now() < endBy` still
passes (the clock being monotone, every later check fails).  Returns the
result (`none` models `NaN`), the `consumedCalculating` replay queue, and what
is left in the walker. -/
def calculateSize (files : List ZipSource) (budget : Nat) :
    Option Nat × List ZipSource × List ZipSource :=
  go budget [] files
where
  go : Nat → List ZipSource → List ZipSource →
      Option Nat × List ZipSource × List ZipSource
  | 0, consumed, remaining => (none, consumed, remaining)
  | _ + 1, consumed, [] => (some (calcTotal consumed), consumed, [])
  | b + 1, consumed, f :: rest => go b (consumed ++ [f]) rest

/-! ### Derived specification helpers (used to state the characterization
lemmas; all defined from the operational definitions above). -/

/-- The checksum that ends up in a source's central directory entry: the
cached value when the cache is trusted, otherwise the running CRC folded over
the streamed chunks starting from `crc32function('')`. -/
def entryCrc (crcFn : List Nat → Nat → Nat) (cache : CrcCache) (f : ZipSource) : Nat :=
  if hitB cache f.sourcePath f.ts then crcInit crcFn cache f.sourcePath f.ts
  else f.data.foldl (fun a c => crcFn c a) (crcFn [] 0)

/-- The cache after processing one source on an unranged stream: the skip
branch (only reachable unranged for a trusted zero-size source) leaves the
cache alone, any streamed source writes its final checksum back. -/
def nextCache (crcFn : List Nat → Nat → Nat) (cache : CrcCache) (f : ZipSource) : CrcCache :=
  if f.size = 0 ∧ hitB cache f.sourcePath f.ts then cache
  else cacheWrite cache f.sourcePath f.ts (entryCrc crcFn cache f)

/-- The cache after an unranged drain of `files`. -/
def procCache (crcFn : List Nat → Nat → Nat) : CrcCache → List ZipSource → CrcCache
  | cache, [] => cache
  | cache, f :: rest => procCache crcFn (nextCache crcFn cache f) rest

/-- The central directory entries an unranged drain of `files` queues,
starting at byte offset `off` with cache `cache`. -/
def procEntries (crcFn : List Nat → Nat → Nat) : CrcCache → Nat → List ZipSource → List CDEntry
  | _, _, [] => []
  | cache, off, f :: rest =>
    { size := f.size, crc := entryCrc crcFn cache f, ts := f.ts, pathAsBuffer := f.path
      offset := off, version := 20, extAttr := extAttrOf f.mode } ::
    procEntries crcFn (nextCache crcFn cache f) (off + 30 + f.path.length + f.size) rest

/-- Bytes of the local-file part of the archive (headers, paths, data). -/
def localBytes : List ZipSource → List Nat
  | [] => []
  | f :: rest => pairsBytes (localHeader f 20) ++ f.path ++ f.data.flatten ++ localBytes rest

/-- Virtual byte length of the local-file part (assuming accurate sizes). -/
def localLen : List ZipSource → Nat
  | [] => 0
  | f :: rest => 30 + f.path.length + f.size + localLen rest

/-- The extra-field bytes of one central directory record. -/
def cdER (e : CDEntry) : List Nat := pairsBytes (cdExtraPairs (zip64Extra e))

/-- The bytes one entry contributes to the central directory. -/
def cdEntryBytes (e : CDEntry) : List Nat :=
  pairsBytes (cdRecord e (cdVersion e (cdER e).length) (cdSizeField e) (cdOffsetField e)
    (cdER e).length) ++ e.pathAsBuffer ++ cdER e

/-- The bytes of the whole central directory. -/
def cdBytes : List CDEntry → List Nat
  | [] => []
  | e :: rest => cdEntryBytes e ++ cdBytes rest

/-! ### Lemmas about the binary packer -/

theorem toLEBytes_length (n v : Nat) : (toLEBytes n v).length = n := by
  simp [toLEBytes]

theorem pairsBytes_length (ps : List (Nat × Nat)) :
    (pairsBytes ps).length = (ps.map Prod.fst).sum := by
  induction ps with
  | nil => simp [pairsBytes]
  | cons p rest ih =>
      simp [pairsBytes, List.flatten_cons, toLEBytes_length] at *
      omega

theorem buffer_eq_of_ok {ps : List (Nat × Nat)} (h : bufferOk ps = true) :
    buffer ps = .ok (pairsBytes ps) := by
  induction ps with
  | nil => simp [buffer, pairsBytes]
  | cons p rest ih =>
      simp only [bufferOk, List.all_cons, Bool.and_eq_true, decide_eq_true_eq] at h
      obtain ⟨⟨h1, h2⟩, h3⟩ := h
      have hr : bufferOk rest = true := h3
      cases p with
      | mk sz v =>
        simp only [buffer]
        rw [if_pos h1, if_pos h2, ih hr]
        simp [pairsBytes]

theorem buffer_ok_inv {ps : List (Nat × Nat)} {bs : List Nat} (h : buffer ps = .ok bs) :
    bufferOk ps = true ∧ bs = pairsBytes ps := by
  induction ps generalizing bs with
  | nil =>
      simp only [buffer] at h
      cases h
      simp [bufferOk, pairsBytes]
  | cons p rest ih =>
      cases p with
      | mk sz v =>
        simp only [buffer] at h
        by_cases h1 : sz = 1 ∨ sz = 2 ∨ sz = 4 ∨ sz = 8
        · rw [if_pos h1] at h
          by_cases h2 : v < 256 ^ sz
          · rw [if_pos h2] at h
            cases hb : buffer rest with
            | ok bs2 =>
                rw [hb] at h
                cases h
                obtain ⟨hok, hbs⟩ := ih hb
                refine ⟨?_, ?_⟩
                · simp only [bufferOk, List.all_cons, Bool.and_eq_true, decide_eq_true_eq]
                  exact ⟨⟨h1, h2⟩, hok⟩
                · simp [pairsBytes, hbs]
            | error e => rw [hb] at h; cases h
          · rw [if_neg h2] at h; cases h
        · rw [if_neg h1] at h; cases h

/-! ### Lemmas about the push machinery -/

theorem zipPush_of_errored {s : St} (h : s.errored = true) (c : List Nat) :
    zipPush c s = s := by
  simp [zipPush, h]

theorem zipPushPairs_of_errored {s : St} (h : s.errored = true) (ps : List (Nat × Nat)) :
    zipPushPairs ps s = s := by
  simp [zipPushPairs, h]

theorem readFile_of_finished_or_errored {s : St} (crcFn : List Nat → Nat → Nat)
    (f : ZipSource) (h : s.finished = true ∨ s.errored = true) :
    readFile crcFn f s = s := by
  rw [readFile, if_pos (by simpa using h)]

theorem closeEntry_of_errored {s : St} (h : s.errored = true) (e : CDEntry) :
    closeEntry s e = s := by
  simp [closeEntry, h]

theorem pushOut_errored (c : List Nat) (s : St) : (pushOut c s).errored = s.errored := by
  unfold pushOut; split <;> rfl

theorem pushEmit_errored (c : List Nat) (s : St) : (pushEmit c s).errored = s.errored := by
  unfold pushEmit
  split
  · split <;> simp [earlyClose, pushOut_errored]
  · exact pushOut_errored c s

theorem zipPush_errored (c : List Nat) (s : St) : (zipPush c s).errored = s.errored := by
  unfold zipPush
  split
  · rfl
  · dsimp only
    split
    · split
      · rfl
      · exact pushEmit_errored _ _
    · exact pushEmit_errored _ _

theorem zipPushPairs_ok {ps : List (Nat × Nat)} {s : St} (hs : s.errored = false)
    (h : (zipPushPairs ps s).errored = false) :
    zipPushPairs ps s = zipPush (pairsBytes ps) s ∧ bufferOk ps = true := by
  rw [zipPushPairs, if_neg (by simp [hs])] at *
  cases hb : buffer ps with
  | ok bs =>
      obtain ⟨hok, hbs⟩ := buffer_ok_inv hb
      exact ⟨by subst hbs; rfl, hok⟩
  | error e =>
      rw [hb] at h
      have : ({ s with errored := true } : St).errored = false := h
      simp at this

theorem zipPush_unranged {s : St} (c : List Nat) (hsk : s.skip = 0)
    (hl : s.limit = none) (he : s.ended = false) (her : s.errored = false) :
    zipPush c s = { s with dataWritten := s.dataWritten + c.length, out := s.out ++ c } := by
  obtain ⟨dw, sk, lim, fin, en, er, o, cd, nof, ca⟩ := s
  simp only at hsk hl he her
  subst hsk hl he her
  simp [zipPush, pushEmit, pushOut]

theorem streamData_unranged (crcFn : List Nat → Nat → Nat) (hit : Bool)
    (chunks : List (List Nat)) (crc : Nat) (s : St) (hsk : s.skip = 0)
    (hl : s.limit = none) (he : s.ended = false) (her : s.errored = false)
    (hf : s.finished = false) :
    streamData crcFn hit chunks crc s =
      ({ s with dataWritten := s.dataWritten + (chunks.map List.length).sum
                out := s.out ++ chunks.flatten },
       (if hit then crc else chunks.foldl (fun a c => crcFn c a) crc), true) := by
  induction chunks generalizing crc s with
  | nil =>
      simp only [streamData, List.map_nil, List.sum_nil, Nat.add_zero, List.flatten_nil,
        List.append_nil]
      cases s
      simp
  | cons c rest ih =>
      simp only [streamData]
      rw [zipPush_unranged c hsk hl he her]
      rw [if_neg (by simpa using hf)]
      rw [ih _ _ (by simpa using hsk) (by simpa using hl) (by simpa using he)
        (by simpa using her) (by simpa using hf)]
      cases hit <;> simp [Nat.add_assoc]

theorem localHeader_bytes_length (f : ZipSource) (v : Nat) :
    (pairsBytes (localHeader f v)).length = 30 := by
  simp [pairsBytes_length, localHeader, ts2buf]

theorem flatten_eq_nil_of_sum_len {l : List (List Nat)} (h : (l.map List.length).sum = 0) :
    l.flatten = [] := by
  have hlen : l.flatten.length = 0 := by
    rw [List.length_flatten]
    simpa using h
  exact List.eq_nil_of_length_eq_zero hlen

theorem zipPushPairs_of_buffer {ps : List (Nat × Nat)} {bs : List Nat} {s : St}
    (hb : buffer ps = .ok bs) (hs : s.errored = false) :
    zipPushPairs ps s = zipPush bs s := by
  rw [zipPushPairs, if_neg (by simp [hs]), hb]

theorem crcInit_of_not_hit {crcFn : List Nat → Nat → Nat} {cache : CrcCache}
    {sp : Option String} {ts : JsDate} (h : hitB cache sp ts = false) :
    crcInit crcFn cache sp ts = crcFn [] 0 := by
  unfold crcInit
  unfold hitB at h
  cases hx : cacheLookup cache sp with
  | none => rfl
  | some c =>
      rw [hx] at h
      have h2 : (c.ts.ms == ts.ms) = false := h
      simp [h2]

theorem readFile_unranged (crcFn : List Nat → Nat → Nat) (f : ZipSource) (s : St)
    (hsk : s.skip = 0) (hl : s.limit = none) (hf : s.finished = false)
    (he : s.ended = false) (her : s.errored = false)
    (herr : (readFile crcFn f s).errored = false) :
    readFile crcFn f s =
      { s with
        numberOfFiles := s.numberOfFiles + 1
        dataWritten := s.dataWritten + 30 + f.path.length +
          (if f.size = 0 ∧ hitB s.cache f.sourcePath f.ts = true then 0
           else (f.data.map List.length).sum)
        out := s.out ++ pairsBytes (localHeader f 20) ++ f.path ++
          (if f.size = 0 ∧ hitB s.cache f.sourcePath f.ts = true then []
           else f.data.flatten)
        centralDir := s.centralDir ++
          [{ size := f.size, crc := entryCrc crcFn s.cache f, ts := f.ts
             pathAsBuffer := f.path, offset := s.dataWritten, version := 20
             extAttr := extAttrOf f.mode }]
        cache := nextCache crcFn s.cache f } ∧
    bufferOk (localHeader f 20) = true := by
  obtain ⟨dw, sk, lim, fin, en, er, o, cd, nof, ca⟩ := s
  simp only at hsk hl hf he her
  subst hsk hl hf he her
  cases hb : buffer (localHeader f 20) with
  | error e =>
      exfalso
      rw [readFile] at herr
      rw [if_neg (by simp)] at herr
      simp only [zipPushPairs, hb] at herr
      simp only [zipPush, pushEmit, pushOut] at herr
      simp at herr
  | ok bs =>
      obtain ⟨hok, hbs⟩ := buffer_ok_inv hb
      subst hbs
      refine ⟨?_, hok⟩
      rw [readFile]
      rw [if_neg (by simp)]
      dsimp only
      rw [zipPushPairs_of_buffer hb rfl]
      rw [zipPush_unranged _ rfl rfl rfl rfl]
      rw [zipPush_unranged _ rfl rfl rfl rfl]
      dsimp only
      rw [if_neg (by simp)]
      rw [if_neg (by simp)]
      by_cases hcond : f.size = 0 ∧ hitB ca f.sourcePath f.ts = true
      · rw [if_pos (by exact ⟨by simp [hcond.1], hcond.2⟩)]
        rw [if_pos hcond, if_pos hcond]
        simp only [localHeader_bytes_length, entryCrc, nextCache, if_pos hcond, hcond.2, if_true]
        simp [hcond.1]
      · rw [if_neg (fun hcc => hcond ⟨Nat.le_zero.mp hcc.1, hcc.2⟩)]
        rw [streamData_unranged crcFn _ _ _ _ rfl rfl rfl rfl rfl]
        dsimp only
        rw [if_pos rfl]
        rw [if_neg hcond, if_neg hcond]
        simp only [localHeader_bytes_length, entryCrc, nextCache, if_neg hcond]
        by_cases hhit : hitB ca f.sourcePath f.ts = true
        · simp [hhit]
        · have h0 : hitB ca f.sourcePath f.ts = false := by simpa using hhit
          rw [crcInit_of_not_hit h0]

theorem readFile_errored_false {crcFn : List Nat → Nat → Nat} {f : ZipSource} {s : St}
    (h : (readFile crcFn f s).errored = false) : s.errored = false := by
  by_cases he : s.errored = true
  · rw [readFile_of_finished_or_errored crcFn f (Or.inr he)] at h
    exact h
  · simpa using he

theorem drainFiles_errored_false {crcFn : List Nat → Nat → Nat} {files : List ZipSource}
    {s : St} (h : (drainFiles crcFn files s).errored = false) : s.errored = false := by
  induction files generalizing s with
  | nil => exact h
  | cons f rest ih =>
      rw [drainFiles] at h
      exact readFile_errored_false (ih h)

theorem drainFiles_unranged (crcFn : List Nat → Nat → Nat) (files : List ZipSource) (s : St)
    (hsk : s.skip = 0) (hl : s.limit = none) (hf : s.finished = false)
    (he : s.ended = false) (her : s.errored = false)
    (hsz : ∀ f ∈ files, (f.data.map List.length).sum = f.size)
    (herr : (drainFiles crcFn files s).errored = false) :
    drainFiles crcFn files s =
      { s with numberOfFiles := s.numberOfFiles + files.length
               dataWritten := s.dataWritten + localLen files
               out := s.out ++ localBytes files
               centralDir := s.centralDir ++ procEntries crcFn s.cache s.dataWritten files
               cache := procCache crcFn s.cache files } := by
  induction files generalizing s with
  | nil =>
      obtain ⟨dw, sk, lim, fin, en, er, o, cd, nof, ca⟩ := s
      simp [drainFiles, localLen, localBytes, procEntries, procCache]
  | cons f rest ih =>
      obtain ⟨dw, sk, lim, fin, en, er, o, cd, nof, ca⟩ := s
      simp only at hsk hl hf he her
      subst hsk hl hf he her
      rw [drainFiles] at herr ⊢
      have h1 := drainFiles_errored_false herr
      obtain ⟨hrf, -⟩ := readFile_unranged crcFn f _ rfl rfl rfl rfl rfl h1
      rw [hrf] at herr ⊢
      have hdw : (if f.size = 0 ∧ hitB ca f.sourcePath f.ts = true then 0
          else (f.data.map List.length).sum) = f.size := by
        split
        · omega
        · exact hsz f (List.mem_cons_self f rest)
      have hdat : (if f.size = 0 ∧ hitB ca f.sourcePath f.ts = true then ([] : List Nat)
          else f.data.flatten) = f.data.flatten := by
        split
        · refine (flatten_eq_nil_of_sum_len ?_).symm
          rw [hsz f (List.mem_cons_self f rest)]
          omega
        · rfl
      rw [hdw, hdat] at herr ⊢
      rw [ih _ rfl rfl rfl rfl rfl (fun g hg => hsz g (List.mem_cons_of_mem f hg)) herr]
      simp only [localLen, localBytes, procEntries, procCache, nextCache, entryCrc]
      simp [St.mk.injEq, List.append_assoc, Nat.add_assoc]
      omega

/-- The bytes of the end-of-archive records. -/
def endBytesOf (n numberOfFiles centralSize centralOffset after : Nat) : List Nat :=
  ((endRecords n numberOfFiles centralSize centralOffset after).map pairsBytes).flatten

theorem zipPushPairs_errored_false {ps : List (Nat × Nat)} {s : St}
    (h : (zipPushPairs ps s).errored = false) : s.errored = false := by
  by_cases he : s.errored = true
  · rw [zipPushPairs_of_errored he] at h
    exact h
  · simpa using he

theorem closeEntry_errored_false {s : St} {e : CDEntry}
    (h : (closeEntry s e).errored = false) : s.errored = false := by
  by_cases he : s.errored = true
  · rw [closeEntry_of_errored he] at h
    exact h
  · simpa using he

theorem closeEntry_char (s : St) (e : CDEntry) (hsk : s.skip = 0) (hl : s.limit = none)
    (he : s.ended = false) (her : s.errored = false)
    (herr : (closeEntry s e).errored = false) :
    closeEntry s e = { s with dataWritten := s.dataWritten + (cdEntryBytes e).length
                              out := s.out ++ cdEntryBytes e } := by
  obtain ⟨dw, sk, lim, fin, en, er, o, cd, nof, ca⟩ := s
  simp only at hsk hl he her
  subst hsk hl he her
  cases hb : buffer (cdExtraPairs (zip64Extra e)) with
  | error e2 =>
      exfalso
      rw [closeEntry] at herr
      rw [if_neg (by simp)] at herr
      rw [hb] at herr
      simp at herr
  | ok ed =>
      obtain ⟨hok1, hed⟩ := buffer_ok_inv hb
      subst hed
      rw [closeEntry] at herr ⊢
      rw [if_neg (by simp)] at herr ⊢
      rw [hb] at herr ⊢
      dsimp only at herr ⊢
      have h2 : (zipPushPairs
          (cdRecord e (cdVersion e (pairsBytes (cdExtraPairs (zip64Extra e))).length)
            (cdSizeField e) (cdOffsetField e) (pairsBytes (cdExtraPairs (zip64Extra e))).length)
          (St.mk dw 0 none fin false false o cd nof ca)).errored = false := by
        rw [zipPush_errored, zipPush_errored] at herr
        exact herr
      obtain ⟨hz, hok2⟩ := zipPushPairs_ok rfl h2
      rw [hz]
      rw [zipPush_unranged _ rfl rfl rfl rfl]
      rw [zipPush_unranged _ rfl rfl rfl rfl]
      rw [zipPush_unranged _ rfl rfl rfl rfl]
      simp [cdEntryBytes, cdER, List.append_assoc]
      omega

theorem closeEntry_fold_errored_false {es : List CDEntry} {s : St}
    (h : (es.foldl closeEntry s).errored = false) : s.errored = false := by
  induction es generalizing s with
  | nil => exact h
  | cons e rest ih => exact closeEntry_errored_false (ih h)

theorem closeEntry_fold_char (es : List CDEntry) (s : St) (hsk : s.skip = 0)
    (hl : s.limit = none) (he : s.ended = false) (her : s.errored = false)
    (herr : ((es.foldl closeEntry s)).errored = false) :
    es.foldl closeEntry s =
      { s with dataWritten := s.dataWritten + (cdBytes es).length
               out := s.out ++ cdBytes es } := by
  induction es generalizing s with
  | nil =>
      obtain ⟨dw, sk, lim, fin, en, er, o, cd, nof, ca⟩ := s
      simp [cdBytes]
  | cons e rest ih =>
      rw [List.foldl_cons] at herr ⊢
      have h1 : (closeEntry s e).errored = false := closeEntry_fold_errored_false herr
      rw [closeEntry_char s e hsk hl he her h1] at herr ⊢
      rw [ih _ (by simpa using hsk) (by simpa using hl) (by simpa using he)
        (by simpa using her) herr]
      obtain ⟨dw, sk, lim, fin, en, er, o, cd, nof, ca⟩ := s
      simp [cdBytes, St.mk.injEq, List.append_assoc]
      omega

theorem pushPairs_fold_errored_false {pss : List (List (Nat × Nat))} {s : St}
    (h : ((pss.foldl (fun s ps => zipPushPairs ps s) s)).errored = false) :
    s.errored = false := by
  induction pss generalizing s with
  | nil => exact h
  | cons ps rest ih => exact zipPushPairs_errored_false (ih h)

theorem pushPairs_fold_char (pss : List (List (Nat × Nat))) (s : St) (hsk : s.skip = 0)
    (hl : s.limit = none) (he : s.ended = false) (her : s.errored = false)
    (herr : ((pss.foldl (fun s ps => zipPushPairs ps s) s)).errored = false) :
    pss.foldl (fun s ps => zipPushPairs ps s) s =
      { s with dataWritten := s.dataWritten + ((pss.map pairsBytes).flatten).length
               out := s.out ++ (pss.map pairsBytes).flatten } := by
  induction pss generalizing s with
  | nil =>
      obtain ⟨dw, sk, lim, fin, en, er, o, cd, nof, ca⟩ := s
      simp
  | cons ps rest ih =>
      rw [List.foldl_cons] at herr ⊢
      have h1 : (zipPushPairs ps s).errored = false := pushPairs_fold_errored_false herr
      obtain ⟨hz, -⟩ := zipPushPairs_ok her h1
      rw [hz] at herr ⊢
      rw [zipPush_unranged _ hsk hl he her] at herr ⊢
      rw [ih _ (by simpa using hsk) (by simpa using hl) (by simpa using he)
        (by simpa using her) herr]
      obtain ⟨dw, sk, lim, fin, en, er, o, cd, nof, ca⟩ := s
      simp [St.mk.injEq, List.append_assoc]
      omega

theorem errored_if_ended (c : Prop) [Decidable c] (X : St) :
    ((if c then X else { X with ended := true }) : St).errored = X.errored := by
  split <;> rfl

theorem closeArchive_char (s : St) (hsk : s.skip = 0) (hl : s.limit = none)
    (he : s.ended = false) (her : s.errored = false)
    (herr : (closeArchive s).errored = false) :
    closeArchive s =
      { s with finished := true
               ended := true
               dataWritten := s.dataWritten + (cdBytes s.centralDir).length +
                 (endBytesOf s.centralDir.length s.numberOfFiles (cdBytes s.centralDir).length
                   s.dataWritten (s.dataWritten + (cdBytes s.centralDir).length)).length
               out := s.out ++ cdBytes s.centralDir ++
                 endBytesOf s.centralDir.length s.numberOfFiles (cdBytes s.centralDir).length
                   s.dataWritten (s.dataWritten + (cdBytes s.centralDir).length) } := by
  obtain ⟨dw, sk, lim, fin, en, er, o, cd, nof, ca⟩ := s
  simp only at hsk hl he her
  subst hsk hl he her
  rw [closeArchive] at herr ⊢
  dsimp only at herr ⊢
  rw [errored_if_ended] at herr
  have h1 := pushPairs_fold_errored_false herr
  rw [closeEntry_fold_char cd _ rfl rfl rfl rfl h1] at herr ⊢
  dsimp only at herr ⊢
  rw [Nat.add_sub_cancel_left] at herr ⊢
  rw [pushPairs_fold_char _ _ rfl rfl rfl rfl herr]
  rw [if_neg (by simp)]
  simp [endBytesOf, List.append_assoc]

theorem closeArchive_errored_false {s : St} (h : (closeArchive s).errored = false) :
    s.errored = false := by
  rw [closeArchive] at h
  dsimp only at h
  rw [errored_if_ended] at h
  have h2 : ({ s with finished := true } : St).errored = false :=
    closeEntry_fold_errored_false (pushPairs_fold_errored_false h)
  exact h2

theorem zipDrain_errored_false {crcFn : List Nat → Nat → Nat} {files : List ZipSource}
    {s : St} (h : (zipDrain crcFn files s).errored = false) :
    (drainFiles crcFn files s).errored = false := by
  rw [zipDrain] at h
  by_cases hc : (drainFiles crcFn files s).finished = true ∨
      (drainFiles crcFn files s).errored = true
  · rw [if_pos hc] at h
    exact h
  · rw [if_neg hc] at h
    exact closeArchive_errored_false h

/-- The central directory entries of a full fresh unranged run. -/
def specEntries (crcFn : List Nat → Nat → Nat) (cache0 : CrcCache)
    (files : List ZipSource) : List CDEntry :=
  procEntries crcFn cache0 0 files

/-- The end-of-archive record bytes of a full fresh unranged run. -/
def specEnd (crcFn : List Nat → Nat → Nat) (cache0 : CrcCache)
    (files : List ZipSource) : List Nat :=
  endBytesOf (specEntries crcFn cache0 files).length files.length
    (cdBytes (specEntries crcFn cache0 files)).length (localLen files)
    (localLen files + (cdBytes (specEntries crcFn cache0 files)).length)

/-- The whole byte stream of a full fresh unranged run. -/
def specOut (crcFn : List Nat → Nat → Nat) (cache0 : CrcCache)
    (files : List ZipSource) : List Nat :=
  localBytes files ++ cdBytes (specEntries crcFn cache0 files) ++ specEnd crcFn cache0 files

theorem runUnranged_char (crcFn : List Nat → Nat → Nat) (cache0 : CrcCache)
    (files : List ZipSource)
    (hsz : ∀ f ∈ files, (f.data.map List.length).sum = f.size)
    (herr : (runUnranged crcFn cache0 files).errored = false) :
    runUnranged crcFn cache0 files =
      { dataWritten := localLen files + (cdBytes (specEntries crcFn cache0 files)).length +
          (specEnd crcFn cache0 files).length
        skip := 0, limit := none, finished := true, ended := true, errored := false
        out := specOut crcFn cache0 files
        centralDir := specEntries crcFn cache0 files
        numberOfFiles := files.length
        cache := procCache crcFn cache0 files } := by
  have hderr : (drainFiles crcFn files (initSt cache0)).errored = false :=
    zipDrain_errored_false herr
  have hd := drainFiles_unranged crcFn files (initSt cache0) rfl rfl rfl rfl rfl hsz hderr
  rw [runUnranged, zipDrain] at herr ⊢
  rw [hd] at herr ⊢
  rw [if_neg (by simp [initSt])] at herr ⊢
  rw [closeArchive_char _ rfl rfl rfl rfl herr]
  simp [initSt, specEntries, specEnd, specOut, St.mk.injEq]

/-! ### Length arithmetic -/

theorem localBytes_length (files : List ZipSource)
    (hsz : ∀ f ∈ files, (f.data.map List.length).sum = f.size) :
    (localBytes files).length = localLen files := by
  induction files with
  | nil => rfl
  | cons f rest ih =>
      simp only [localBytes, localLen, List.length_append, localHeader_bytes_length,
        List.length_flatten]
      rw [ih (fun g hg => hsz g (List.mem_cons_of_mem f hg))]
      have := hsz f (List.mem_cons_self f rest)
      simp only [Function.comp] at this ⊢
      omega

theorem cdEntryBytes_length (e : CDEntry) :
    (cdEntryBytes e).length = 46 + e.pathAsBuffer.length + (cdER e).length := by
  simp only [cdEntryBytes, List.length_append, pairsBytes_length, cdRecord, ts2buf]
  simp


/-- Per-entry central directory byte cost. -/
def cdLen : List CDEntry → Nat
  | [] => 0
  | e :: rest => 46 + e.pathAsBuffer.length + (cdER e).length + cdLen rest

theorem cdBytes_length (es : List CDEntry) : (cdBytes es).length = cdLen es := by
  induction es with
  | nil => rfl
  | cons e rest ih =>
      simp only [cdBytes, cdLen, List.length_append, cdEntryBytes_length, ih]

theorem zip64Extra_length (e : CDEntry) :
    (zip64Extra e).length =
      (if ZIP64_LIMIT < e.size then 2 else 0) + (if ZIP64_LIMIT < e.offset then 1 else 0) := by
  rw [zip64Extra]
  split <;> split <;> simp

theorem sum_fst_map_eight (l : List Nat) :
    ((l.map (fun x => ((8 : Nat), x))).map Prod.fst).sum = 8 * l.length := by
  induction l with
  | nil => simp
  | cons x rest ih =>
      simp [ih]
      omega

theorem cdER_length (e : CDEntry) :
    (cdER e).length =
      if (zip64Extra e).length = 0 then 0 else 2 + 2 + 8 * (zip64Extra e).length := by
  rw [cdER, cdExtraPairs]
  by_cases hx : zip64Extra e = []
  · simp [hx, pairsBytes]
  · rw [if_neg hx]
    rw [pairsBytes_length]
    simp only [List.map_cons, List.sum_cons, sum_fst_map_eight]
    rw [if_neg (by simpa [List.length_eq_zero] using hx)]
    omega

theorem endBytesOf_length (n nof cs co after : Nat) :
    (endBytesOf n nof cs co after).length = (if ZIP64_LIMIT < co then 76 else 0) + 22 := by
  rw [endBytesOf, endRecords]
  split <;> simp [pairsBytes_length, zip64End, zip64Locator, eocd]

theorem calcFold_char (crcFn : List Nat → Nat → Nat) (files : List ZipSource) :
    ∀ (cache : CrcCache) (off c0 : Nat),
    files.foldl
      (fun (acc : Nat × Nat) f =>
        let pathSize := f.path.length
        let extraLength := (if ZIP64_LIMIT < f.size then 2 else 0) +
          (if ZIP64_LIMIT < acc.1 then 1 else 0)
        let extraDataSize := if extraLength = 0 then 0 else 2+2 + extraLength * 8
        (acc.1 + 4+2+2+2+ 4+4+4+4+ 2+2 + pathSize + f.size,
         acc.2 + 4+2+2+2+2+ 4+4+4+4+ 2+2+2+2+2+ 4+4 + pathSize + extraDataSize))
      (off, c0) =
      (off + localLen files, c0 + cdLen (procEntries crcFn cache off files)) := by
  induction files with
  | nil =>
      intro cache off c0
      simp [localLen, procEntries, cdLen]
  | cons f rest ih =>
      intro cache off c0
      rw [List.foldl_cons]
      have hpair :
          (fun (acc : Nat × Nat) f =>
            let pathSize := f.path.length
            let extraLength := (if ZIP64_LIMIT < f.size then 2 else 0) +
              (if ZIP64_LIMIT < acc.1 then 1 else 0)
            let extraDataSize := if extraLength = 0 then 0 else 2+2 + extraLength * 8
            (acc.1 + 4+2+2+2+ 4+4+4+4+ 2+2 + pathSize + f.size,
             acc.2 + 4+2+2+2+2+ 4+4+4+4+ 2+2+2+2+2+ 4+4 + pathSize + extraDataSize))
            (off, c0) f =
          (off + 30 + f.path.length + f.size,
           c0 + 46 + f.path.length +
             (if ((if ZIP64_LIMIT < f.size then 2 else 0) +
                  (if ZIP64_LIMIT < off then 1 else 0)) = 0 then 0
              else 2 + 2 + 8 * ((if ZIP64_LIMIT < f.size then 2 else 0) +
                  (if ZIP64_LIMIT < off then 1 else 0)))) := by
        dsimp only
        rw [Prod.mk.injEq]
        refine ⟨by omega, ?_⟩
        by_cases hL : ((if ZIP64_LIMIT < f.size then 2 else 0) +
            (if ZIP64_LIMIT < off then 1 else 0)) = 0
        · rw [if_pos hL, if_pos hL]
        · rw [if_neg hL, if_neg hL]
          omega
      simp only [hpair]
      rw [ih (nextCache crcFn cache f)]
      simp only [procEntries, cdLen, localLen, Prod.mk.injEq]
      constructor
      · omega
      · rw [cdER_length, zip64Extra_length]
        dsimp only
        by_cases hL : ((if ZIP64_LIMIT < f.size then 2 else 0) +
            (if ZIP64_LIMIT < off then 1 else 0)) = 0
        · omega
        · omega

theorem calcTotal_char (crcFn : List Nat → Nat → Nat) (cache : CrcCache)
    (files : List ZipSource) :
    calcTotal files = localLen files + cdLen (procEntries crcFn cache 0 files) +
      ((if ZIP64_LIMIT < localLen files then 76 else 0) + 22) := by
  rw [calcTotal]
  dsimp only
  rw [calcFold_char crcFn files cache 0 0]
  dsimp only
  by_cases hz : ZIP64_LIMIT < 0 + localLen files
  · rw [if_pos hz, if_pos (by omega : ZIP64_LIMIT < localLen files)]
    omega
  · rw [if_neg hz, if_neg (by omega : ¬ ZIP64_LIMIT < localLen files)]
    omega

theorem calculateSize_go_exhausts (files : List ZipSource) :
    ∀ (b : Nat) (consumed : List ZipSource), files.length < b →
    calculateSize.go b consumed files =
      (some (calcTotal (consumed ++ files)), consumed ++ files, []) := by
  induction files with
  | nil =>
      intro b consumed hb
      match b, hb with
      | b + 1, _ => simp [calculateSize.go]
  | cons f rest ih =>
      intro b consumed hb
      match b, hb with
      | b + 1, hb =>
          rw [calculateSize.go]
          rw [ih b (consumed ++ [f]) (by simpa using hb)]
          simp

theorem calculateSize_exhausts (files : List ZipSource) (b : Nat) (hb : files.length < b) :
    calculateSize files b = (some (calcTotal files), files, []) := by
  rw [calculateSize]
  rw [calculateSize_go_exhausts files b [] hb]
  simp

theorem calculateSize_go_expires :
    ∀ (b : Nat) (files consumed : List ZipSource), b ≤ files.length →
    calculateSize.go b consumed files =
      (none, consumed ++ files.take b, files.drop b) := by
  intro b
  induction b with
  | zero => intro files consumed _; simp [calculateSize.go]
  | succ b ih =>
      intro files consumed hb
      match files, hb with
      | f :: rest, hb =>
          rw [calculateSize.go]
          rw [ih rest (consumed ++ [f]) (by simpa using hb)]
          simp

theorem calculateSize_expires (files : List ZipSource) (b : Nat) (hb : b ≤ files.length) :
    calculateSize files b = (none, files.take b, files.drop b) := by
  rw [calculateSize]
  rw [calculateSize_go_expires b files [] hb]
  simp

/-! ### Claim theorems -/

/-- Claim C1: for every finite source sequence whose sizes are accurate (the
`size` field equals the total length of the chunks `getData()` yields — the
data-model invariant of `ZipSource`), when `calculateSize` exhausts the
provider within its time budget (the deadline check still passes after the
last pull), the number it returns equals the exact byte length of the
complete, unranged archive stream subsequently produced for that same
sequence, provided that stream is produced without an encoding fault. -/
theorem claim_C1 (crcFn : List Nat → Nat → Nat) (cache0 : CrcCache)
    (files : List ZipSource) (b : Nat) (hb : files.length < b)
    (hsz : ∀ f ∈ files, (f.data.map List.length).sum = f.size)
    (herr : (runUnranged crcFn cache0 files).errored = false) :
    calculateSize files b =
      (some ((runUnranged crcFn cache0 files).out.length), files, []) := by
  rw [calculateSize_exhausts files b hb]
  rw [runUnranged_char crcFn cache0 files hsz herr]
  rw [calcTotal_char crcFn cache0 files]
  dsimp only
  rw [specOut, List.length_append, List.length_append,
    localBytes_length files hsz, cdBytes_length]
  rw [specEnd, endBytesOf_length]
  rfl

/-- Witness for C1 at a concrete one-file archive. -/
theorem claim_C1_witness :
    ((1 : Nat) < 2 ∧
      (∀ f ∈ [ZipSource.mk [97, 98] none [[5, 6]] 2 ⟨2020, 0, 1, 0, 0, 0, 0⟩ 0],
        (f.data.map List.length).sum = f.size) ∧
      (runUnranged (fun _ a => a) []
        [ZipSource.mk [97, 98] none [[5, 6]] 2 ⟨2020, 0, 1, 0, 0, 0, 0⟩ 0]).errored = false) ∧
    calculateSize [ZipSource.mk [97, 98] none [[5, 6]] 2 ⟨2020, 0, 1, 0, 0, 0, 0⟩ 0] 2 =
      (some ((runUnranged (fun _ a => a) []
        [ZipSource.mk [97, 98] none [[5, 6]] 2 ⟨2020, 0, 1, 0, 0, 0, 0⟩ 0]).out.length),
       [ZipSource.mk [97, 98] none [[5, 6]] 2 ⟨2020, 0, 1, 0, 0, 0, 0⟩ 0], []) :=
  ⟨⟨by decide, by decide, by decide⟩,
    claim_C1 (fun _ a => a) []
      [ZipSource.mk [97, 98] none [[5, 6]] 2 ⟨2020, 0, 1, 0, 0, 0, 0⟩ 0] 2
      (by decide) (by decide) (by decide)⟩

theorem procEntries_map_path (crcFn : List Nat → Nat → Nat) :
    ∀ (files : List ZipSource) (cache : CrcCache) (off : Nat),
    (procEntries crcFn cache off files).map (fun e => e.pathAsBuffer) =
      files.map (fun f => f.path) := by
  intro files
  induction files with
  | nil => intro cache off; rfl
  | cons f rest ih =>
      intro cache off
      simp [procEntries, ih]

theorem drainFiles_of_finished {crcFn : List Nat → Nat → Nat} {files : List ZipSource}
    {s : St} (h : s.finished = true) : drainFiles crcFn files s = s := by
  induction files with
  | nil => rfl
  | cons f rest ih =>
      rw [drainFiles, readFile_of_finished_or_errored crcFn f (Or.inl h), ih]

theorem zipDrain_of_finished {crcFn : List Nat → Nat → Nat} {files : List ZipSource}
    {s : St} (h : s.finished = true) : zipDrain crcFn files s = s := by
  rw [zipDrain, drainFiles_of_finished h]
  rw [if_pos (Or.inl h)]

/-- Claim C3: when the clock budget expires before the provider is exhausted
(at most as many deadline checks pass as there are sources), `calculateSize`
returns the "unknown" result (`NaN`, modelled `none`), every source it pulled
is kept in the `consumedCalculating` replay queue in order, the replay queue
followed by the untouched remainder of the walker is exactly the original
sequence — so a subsequent full drain (which shifts the replay queue before
pulling the walker again) behaves exactly as a drain of the original
sequence, emitting every source exactly once: one central directory entry per
source, in order, with the sources' paths. -/
theorem claim_C3 (crcFn : List Nat → Nat → Nat) (cache0 : CrcCache)
    (files : List ZipSource) (b : Nat) (hb : b ≤ files.length)
    (hsz : ∀ f ∈ files, (f.data.map List.length).sum = f.size)
    (herr : (runUnranged crcFn cache0 files).errored = false) :
    (calculateSize files b).1 = none ∧
    (calculateSize files b).2.1 = files.take b ∧
    (calculateSize files b).2.2 = files.drop b ∧
    (calculateSize files b).2.1 ++ (calculateSize files b).2.2 = files ∧
    zipDrain crcFn ((calculateSize files b).2.1 ++ (calculateSize files b).2.2)
      (initSt cache0) = runUnranged crcFn cache0 files ∧
    (runUnranged crcFn cache0 files).numberOfFiles = files.length ∧
    (runUnranged crcFn cache0 files).centralDir.map (fun e => e.pathAsBuffer) =
      files.map (fun f => f.path) := by
  rw [calculateSize_expires files b hb]
  refine ⟨rfl, rfl, rfl, List.take_append_drop b files, ?_, ?_, ?_⟩
  · rw [List.take_append_drop b files]
    rfl
  · rw [runUnranged_char crcFn cache0 files hsz herr]
  · rw [runUnranged_char crcFn cache0 files hsz herr]
    exact procEntries_map_path crcFn files cache0 0

/-- Witness for C3 at a concrete two-file sequence with budget 1. -/
theorem claim_C3_witness :
    ((1 : Nat) ≤ 2 ∧
      (∀ f ∈ [ZipSource.mk [97] none [[1]] 1 ⟨2020, 0, 1, 0, 0, 0, 0⟩ 0,
              ZipSource.mk [98] none [[2]] 1 ⟨2020, 0, 1, 0, 0, 0, 0⟩ 0],
        (f.data.map List.length).sum = f.size) ∧
      (runUnranged (fun _ a => a) []
        [ZipSource.mk [97] none [[1]] 1 ⟨2020, 0, 1, 0, 0, 0, 0⟩ 0,
         ZipSource.mk [98] none [[2]] 1 ⟨2020, 0, 1, 0, 0, 0, 0⟩ 0]).errored = false) ∧
    ((calculateSize [ZipSource.mk [97] none [[1]] 1 ⟨2020, 0, 1, 0, 0, 0, 0⟩ 0,
        ZipSource.mk [98] none [[2]] 1 ⟨2020, 0, 1, 0, 0, 0, 0⟩ 0] 1).1 = none ∧
      (calculateSize [ZipSource.mk [97] none [[1]] 1 ⟨2020, 0, 1, 0, 0, 0, 0⟩ 0,
        ZipSource.mk [98] none [[2]] 1 ⟨2020, 0, 1, 0, 0, 0, 0⟩ 0] 1).2.1 =
        [ZipSource.mk [97] none [[1]] 1 ⟨2020, 0, 1, 0, 0, 0, 0⟩ 0,
         ZipSource.mk [98] none [[2]] 1 ⟨2020, 0, 1, 0, 0, 0, 0⟩ 0].take 1 ∧
      (calculateSize [ZipSource.mk [97] none [[1]] 1 ⟨2020, 0, 1, 0, 0, 0, 0⟩ 0,
        ZipSource.mk [98] none [[2]] 1 ⟨2020, 0, 1, 0, 0, 0, 0⟩ 0] 1).2.2 =
        [ZipSource.mk [97] none [[1]] 1 ⟨2020, 0, 1, 0, 0, 0, 0⟩ 0,
         ZipSource.mk [98] none [[2]] 1 ⟨2020, 0, 1, 0, 0, 0, 0⟩ 0].drop 1 ∧
      (calculateSize [ZipSource.mk [97] none [[1]] 1 ⟨2020, 0, 1, 0, 0, 0, 0⟩ 0,
        ZipSource.mk [98] none [[2]] 1 ⟨2020, 0, 1, 0, 0, 0, 0⟩ 0] 1).2.1 ++
       (calculateSize [ZipSource.mk [97] none [[1]] 1 ⟨2020, 0, 1, 0, 0, 0, 0⟩ 0,
        ZipSource.mk [98] none [[2]] 1 ⟨2020, 0, 1, 0, 0, 0, 0⟩ 0] 1).2.2 =
        [ZipSource.mk [97] none [[1]] 1 ⟨2020, 0, 1, 0, 0, 0, 0⟩ 0,
         ZipSource.mk [98] none [[2]] 1 ⟨2020, 0, 1, 0, 0, 0, 0⟩ 0] ∧
      zipDrain (fun _ a => a)
        ((calculateSize [ZipSource.mk [97] none [[1]] 1 ⟨2020, 0, 1, 0, 0, 0, 0⟩ 0,
          ZipSource.mk [98] none [[2]] 1 ⟨2020, 0, 1, 0, 0, 0, 0⟩ 0] 1).2.1 ++
         (calculateSize [ZipSource.mk [97] none [[1]] 1 ⟨2020, 0, 1, 0, 0, 0, 0⟩ 0,
          ZipSource.mk [98] none [[2]] 1 ⟨2020, 0, 1, 0, 0, 0, 0⟩ 0] 1).2.2)
        (initSt []) =
        runUnranged (fun _ a => a) []
          [ZipSource.mk [97] none [[1]] 1 ⟨2020, 0, 1, 0, 0, 0, 0⟩ 0,
           ZipSource.mk [98] none [[2]] 1 ⟨2020, 0, 1, 0, 0, 0, 0⟩ 0] ∧
      (runUnranged (fun _ a => a) []
        [ZipSource.mk [97] none [[1]] 1 ⟨2020, 0, 1, 0, 0, 0, 0⟩ 0,
         ZipSource.mk [98] none [[2]] 1 ⟨2020, 0, 1, 0, 0, 0, 0⟩ 0]).numberOfFiles = 2 ∧
      (runUnranged (fun _ a => a) []
        [ZipSource.mk [97] none [[1]] 1 ⟨2020, 0, 1, 0, 0, 0, 0⟩ 0,
         ZipSource.mk [98] none [[2]] 1 ⟨2020, 0, 1, 0, 0, 0, 0⟩ 0]).centralDir.map
          (fun e => e.pathAsBuffer) =
        [ZipSource.mk [97] none [[1]] 1 ⟨2020, 0, 1, 0, 0, 0, 0⟩ 0,
         ZipSource.mk [98] none [[2]] 1 ⟨2020, 0, 1, 0, 0, 0, 0⟩ 0].map (fun f => f.path)) :=
  ⟨⟨by decide, by decide, by decide⟩,
    claim_C3 (fun _ a => a) []
      [ZipSource.mk [97] none [[1]] 1 ⟨2020, 0, 1, 0, 0, 0, 0⟩ 0,
       ZipSource.mk [98] none [[2]] 1 ⟨2020, 0, 1, 0, 0, 0, 0⟩ 0] 1
      (by decide) (by decide) (by decide)⟩

/-- Claim C8: `applyRange(start, end)` with `end < start` closes the stream
immediately and cleanly: zero bytes are emitted, the stream is ended and
finished, and a subsequent drain pulls no source from the provider and opens
nothing — the whole drain is the identity on the already-closed state, for
every source list. -/
theorem claim_C8 (crcFn : List Nat → Nat → Nat) (cache0 : CrcCache)
    (files : List ZipSource) (start stop : Nat) (h : stop < start) :
    (applyRange start stop (initSt cache0)).out = [] ∧
    (applyRange start stop (initSt cache0)).ended = true ∧
    (applyRange start stop (initSt cache0)).finished = true ∧
    runRanged crcFn cache0 files start stop = applyRange start stop (initSt cache0) ∧
    (runRanged crcFn cache0 files start stop).out = [] ∧
    (runRanged crcFn cache0 files start stop).numberOfFiles = 0 := by
  have ha : applyRange start stop (initSt cache0) = earlyClose (initSt cache0) := by
    rw [applyRange, if_pos h]
  have hz : runRanged crcFn cache0 files start stop = applyRange start stop (initSt cache0) := by
    rw [runRanged, ha]
    exact zipDrain_of_finished rfl
  refine ⟨by rw [ha]; rfl, by rw [ha]; rfl, by rw [ha]; rfl, hz, ?_, ?_⟩
  · rw [hz, ha]
    rfl
  · rw [hz, ha]
    rfl

/-- Witness for C8 at `applyRange(5, 3)` over a one-file walker. -/
theorem claim_C8_witness :
    ((3 : Nat) < 5) ∧
    ((applyRange 5 3 (initSt [])).out = [] ∧
      (applyRange 5 3 (initSt [])).ended = true ∧
      (applyRange 5 3 (initSt [])).finished = true ∧
      runRanged (fun _ a => a) []
        [ZipSource.mk [97] none [[1]] 1 ⟨2020, 0, 1, 0, 0, 0, 0⟩ 0] 5 3 =
        applyRange 5 3 (initSt []) ∧
      (runRanged (fun _ a => a) []
        [ZipSource.mk [97] none [[1]] 1 ⟨2020, 0, 1, 0, 0, 0, 0⟩ 0] 5 3).out = [] ∧
      (runRanged (fun _ a => a) []
        [ZipSource.mk [97] none [[1]] 1 ⟨2020, 0, 1, 0, 0, 0, 0⟩ 0] 5 3).numberOfFiles = 0) :=
  ⟨by decide,
    claim_C8 (fun _ a => a) [] [ZipSource.mk [97] none [[1]] 1 ⟨2020, 0, 1, 0, 0, 0, 0⟩ 0]
      5 3 (by decide)⟩

/-- Claim C4: a central directory record carries a zip64 extra field iff the
entry's size or its recorded local-header offset exceeds `2^31 - 1`; each
overflowing classic 32-bit field is replaced by the sentinel `0xFFFFFFFF`
with the true 64-bit value carried in the extra field's data; the
required-version fields (both written from the same `version`) are raised
from 20 to 45 exactly when a zip64 extra field is written; entries strictly
below both thresholds carry no extra field and keep version 20. -/
theorem claim_C4 (e : CDEntry) (hv : e.version = 20) :
    ((cdER e ≠ []) ↔ (ZIP64_LIMIT < e.size ∨ ZIP64_LIMIT < e.offset)) ∧
    (cdVersion e (cdER e).length =
      if ZIP64_LIMIT < e.size ∨ ZIP64_LIMIT < e.offset then 45 else 20) ∧
    (ZIP64_LIMIT < e.size →
      cdSizeField e = 0xFFFFFFFF ∧ (8, e.size) ∈ cdExtraPairs (zip64Extra e)) ∧
    (ZIP64_LIMIT < e.offset →
      cdOffsetField e = 0xFFFFFFFF ∧ (8, e.offset) ∈ cdExtraPairs (zip64Extra e)) ∧
    (e.size ≤ ZIP64_LIMIT → cdSizeField e = e.size) ∧
    (e.offset ≤ ZIP64_LIMIT → cdOffsetField e = e.offset) ∧
    (¬(ZIP64_LIMIT < e.size ∨ ZIP64_LIMIT < e.offset) →
      cdER e = [] ∧ cdVersion e (cdER e).length = 20) := by
  have hext : zip64Extra e = [] ↔ ¬(ZIP64_LIMIT < e.size ∨ ZIP64_LIMIT < e.offset) := by
    rw [zip64Extra]
    by_cases h1 : ZIP64_LIMIT < e.size <;> by_cases h2 : ZIP64_LIMIT < e.offset <;>
      simp [h1, h2]
  have hlen : cdER e = [] ↔ zip64Extra e = [] := by
    constructor
    · intro h
      by_contra hne
      have := cdER_length e
      rw [h] at this
      simp only [List.length_nil] at this
      have hl0 : (zip64Extra e).length ≠ 0 := by
        simpa [List.length_eq_zero] using hne
      rw [if_neg hl0] at this
      omega
    · intro h
      rw [cdER, cdExtraPairs, if_pos h]
      rfl
  refine ⟨?_, ?_, ?_, ?_, ?_, ?_, ?_⟩
  · rw [Ne, hlen, hext]
    tauto
  · rw [cdVersion, hv]
    by_cases hz : ZIP64_LIMIT < e.size ∨ ZIP64_LIMIT < e.offset
    · rw [if_pos hz]
      have hne : cdER e ≠ [] := by
        rw [Ne, hlen, hext]
        tauto
      rw [if_pos ⟨by simpa [List.length_eq_zero] using hne, by omega⟩]
    · rw [if_neg hz]
      have hnil : cdER e = [] := hlen.mpr (hext.mpr hz)
      rw [if_neg]
      intro hc
      exact hc.1 (by rw [hnil]; rfl)
  · intro h
    refine ⟨by rw [cdSizeField, if_pos h], ?_⟩
    rw [cdExtraPairs, if_neg (by rw [hext]; tauto)]
    rw [zip64Extra, if_pos h]
    simp
  · intro h
    refine ⟨by rw [cdOffsetField, if_pos h], ?_⟩
    rw [cdExtraPairs, if_neg (by rw [hext]; tauto)]
    rw [zip64Extra, if_pos h]
    simp
  · intro h
    rw [cdSizeField, if_neg (by omega)]
  · intro h
    rw [cdOffsetField, if_neg (by omega)]
  · intro h
    refine ⟨hlen.mpr (hext.mpr h), ?_⟩
    rw [cdVersion, hv]
    rw [if_neg]
    intro hc
    rcases hc with ⟨hc1, -⟩
    exact hc1 (by
      have : cdER e = [] := hlen.mpr (hext.mpr h)
      rw [this]
      rfl)

/-- Witness for C4 at a concrete oversized entry. -/
theorem claim_C4_witness :
    ((CDEntry.mk 3000000000 7 ⟨2020, 0, 1, 0, 0, 0, 0⟩ [97] 5 20 0).version = 20) ∧
    (((cdER (CDEntry.mk 3000000000 7 ⟨2020, 0, 1, 0, 0, 0, 0⟩ [97] 5 20 0) ≠ []) ↔
      (ZIP64_LIMIT < (CDEntry.mk 3000000000 7 ⟨2020, 0, 1, 0, 0, 0, 0⟩ [97] 5 20 0).size ∨
       ZIP64_LIMIT < (CDEntry.mk 3000000000 7 ⟨2020, 0, 1, 0, 0, 0, 0⟩ [97] 5 20 0).offset)) ∧
     (cdVersion (CDEntry.mk 3000000000 7 ⟨2020, 0, 1, 0, 0, 0, 0⟩ [97] 5 20 0)
        (cdER (CDEntry.mk 3000000000 7 ⟨2020, 0, 1, 0, 0, 0, 0⟩ [97] 5 20 0)).length =
      if ZIP64_LIMIT < (CDEntry.mk 3000000000 7 ⟨2020, 0, 1, 0, 0, 0, 0⟩ [97] 5 20 0).size ∨
         ZIP64_LIMIT < (CDEntry.mk 3000000000 7 ⟨2020, 0, 1, 0, 0, 0, 0⟩ [97] 5 20 0).offset
      then 45 else 20) ∧
     (ZIP64_LIMIT < (CDEntry.mk 3000000000 7 ⟨2020, 0, 1, 0, 0, 0, 0⟩ [97] 5 20 0).size →
       cdSizeField (CDEntry.mk 3000000000 7 ⟨2020, 0, 1, 0, 0, 0, 0⟩ [97] 5 20 0) = 0xFFFFFFFF ∧
       (8, (CDEntry.mk 3000000000 7 ⟨2020, 0, 1, 0, 0, 0, 0⟩ [97] 5 20 0).size) ∈
         cdExtraPairs (zip64Extra (CDEntry.mk 3000000000 7 ⟨2020, 0, 1, 0, 0, 0, 0⟩ [97] 5 20 0))) ∧
     (ZIP64_LIMIT < (CDEntry.mk 3000000000 7 ⟨2020, 0, 1, 0, 0, 0, 0⟩ [97] 5 20 0).offset →
       cdOffsetField (CDEntry.mk 3000000000 7 ⟨2020, 0, 1, 0, 0, 0, 0⟩ [97] 5 20 0) = 0xFFFFFFFF ∧
       (8, (CDEntry.mk 3000000000 7 ⟨2020, 0, 1, 0, 0, 0, 0⟩ [97] 5 20 0).offset) ∈
         cdExtraPairs (zip64Extra (CDEntry.mk 3000000000 7 ⟨2020, 0, 1, 0, 0, 0, 0⟩ [97] 5 20 0))) ∧
     ((CDEntry.mk 3000000000 7 ⟨2020, 0, 1, 0, 0, 0, 0⟩ [97] 5 20 0).size ≤ ZIP64_LIMIT →
       cdSizeField (CDEntry.mk 3000000000 7 ⟨2020, 0, 1, 0, 0, 0, 0⟩ [97] 5 20 0) =
         (CDEntry.mk 3000000000 7 ⟨2020, 0, 1, 0, 0, 0, 0⟩ [97] 5 20 0).size) ∧
     ((CDEntry.mk 3000000000 7 ⟨2020, 0, 1, 0, 0, 0, 0⟩ [97] 5 20 0).offset ≤ ZIP64_LIMIT →
       cdOffsetField (CDEntry.mk 3000000000 7 ⟨2020, 0, 1, 0, 0, 0, 0⟩ [97] 5 20 0) =
         (CDEntry.mk 3000000000 7 ⟨2020, 0, 1, 0, 0, 0, 0⟩ [97] 5 20 0).offset) ∧
     (¬(ZIP64_LIMIT < (CDEntry.mk 3000000000 7 ⟨2020, 0, 1, 0, 0, 0, 0⟩ [97] 5 20 0).size ∨
        ZIP64_LIMIT < (CDEntry.mk 3000000000 7 ⟨2020, 0, 1, 0, 0, 0, 0⟩ [97] 5 20 0).offset) →
       cdER (CDEntry.mk 3000000000 7 ⟨2020, 0, 1, 0, 0, 0, 0⟩ [97] 5 20 0) = [] ∧
       cdVersion (CDEntry.mk 3000000000 7 ⟨2020, 0, 1, 0, 0, 0, 0⟩ [97] 5 20 0)
         (cdER (CDEntry.mk 3000000000 7 ⟨2020, 0, 1, 0, 0, 0, 0⟩ [97] 5 20 0)).length = 20)) :=
  ⟨by decide, claim_C4 (CDEntry.mk 3000000000 7 ⟨2020, 0, 1, 0, 0, 0, 0⟩ [97] 5 20 0) (by decide)⟩

theorem dosTime_seconds_bits (ts : JsDate) :
    dosTime ts % 32 = (ts.second / 2) &&& 0x0F := by
  have h32 : (32 : Nat) = 2 ^ 5 := by norm_num
  apply Nat.eq_of_testBit_eq
  intro i
  rw [h32, Nat.testBit_mod_two_pow]
  simp only [dosTime, Nat.testBit_lor, Nat.testBit_shiftLeft]
  by_cases hi : i < 5
  · have h11 : ¬(i ≥ 11) := by omega
    have h5 : ¬(i ≥ 5) := by omega
    simp [hi, h11, h5]
  · have hx : ((ts.second / 2) &&& 0x0F) < 2 ^ i :=
      calc ((ts.second / 2) &&& 0x0F) ≤ 0x0F := Nat.and_le_right
      _ < 2 ^ 5 := by norm_num
      _ ≤ 2 ^ i := Nat.pow_le_pow_right (by norm_num) (by omega)
    simp [hi, Nat.testBit_eq_false_of_lt hx]

theorem and_fifteen_of_le {x : Nat} (hx : x ≤ 15) : x &&& 15 = x := by
  interval_cases x <;> rfl

theorem dosDate_of_modern (ts : JsDate) (hy : 1980 ≤ ts.year) :
    dosDate ts = (((ts.year - 1980) % 128) <<< 9) ||| ((ts.month + 1) <<< 5) ||| ts.day := by
  rw [dosDate]
  have h1 : ((ts.year : Int) - 1980) = ((ts.year - 1980 : Nat) : Int) := by omega
  rw [h1]
  have h2 : (((ts.year - 1980 : Nat) : Int).emod 128).toNat = (ts.year - 1980) % 128 := by
    change (((ts.year - 1980 : Nat) : Int) % 128).toNat = _
    omega
  rw [h2]

/-- Claim C7 counterexample: for seconds = 40 the stored seconds component
(the low five bits of the time word) is `(40 / 2) & 0x0F = 4`, not
`floor(40 / 2) = 20` as the claim states — `ts2buf` masks the halved seconds
with `0x0F` (four bits) before storing them. -/
theorem claim_C7_counterexample :
    dosTime ⟨2020, 0, 1, 0, 0, 40, 0⟩ % 32 = 4 ∧ 40 / 2 = 20 ∧
    ts2buf ⟨2020, 0, 1, 0, 0, 40, 0⟩ ≠
      [(2, (0 <<< 11) ||| (0 <<< 5) ||| (40 / 2)), (2, dosDate ⟨2020, 0, 1, 0, 0, 40, 0⟩)] := by
  refine ⟨by decide, by decide, ?_⟩
  intro h
  have := List.head_eq_of_cons_eq h
  simp [ts2buf] at this
  revert this
  decide

/-- Claim C7 (amended): the per-entry date/time is encoded as two 2-byte
little-endian fields, time first then date, with
date = ((year − 1980) mod 128) <<< 9 ||| month <<< 5 ||| day and
time = hour <<< 11 ||| minute <<< 5 ||| ((seconds / 2) & 0x0F): the stored
seconds component is the halved seconds masked to four bits (so it equals
floor(seconds / 2) exactly for seconds ≤ 31), and two timestamps differing
only within the same 2-second interval (and in their millisecond time value)
encode identically. -/
theorem claim_C7_amended (y mo d h mi s s2 ms ms2 : Nat)
    (hy : 1980 ≤ y) (hmo : mo ≤ 11) (hd : d ≤ 31)
    (hh : h ≤ 23) (hmi : mi ≤ 59) (hs : s ≤ 59) :
    buffer (ts2buf ⟨y, mo, d, h, mi, s, ms⟩) =
      .ok (toLEBytes 2 (dosTime ⟨y, mo, d, h, mi, s, ms⟩) ++
           toLEBytes 2 (dosDate ⟨y, mo, d, h, mi, s, ms⟩)) ∧
    dosTime ⟨y, mo, d, h, mi, s, ms⟩ =
      (h <<< 11) ||| (mi <<< 5) ||| ((s / 2) &&& 0x0F) ∧
    dosDate ⟨y, mo, d, h, mi, s, ms⟩ =
      (((y - 1980) % 128) <<< 9) ||| ((mo + 1) <<< 5) ||| d ∧
    dosTime ⟨y, mo, d, h, mi, s, ms⟩ % 32 = (s / 2) &&& 0x0F ∧
    (s ≤ 31 → dosTime ⟨y, mo, d, h, mi, s, ms⟩ % 32 = s / 2) ∧
    (s / 2 = s2 / 2 →
      ts2buf ⟨y, mo, d, h, mi, s, ms⟩ = ts2buf ⟨y, mo, d, h, mi, s2, ms2⟩) := by
  have htime : dosTime ⟨y, mo, d, h, mi, s, ms⟩ < 2 ^ 16 := by
    apply Nat.or_lt_two_pow
    · apply Nat.or_lt_two_pow
      · calc h <<< 11 = h * 2 ^ 11 := by rw [Nat.shiftLeft_eq]
        _ < 2 ^ 16 := by omega
      · calc mi <<< 5 = mi * 2 ^ 5 := by rw [Nat.shiftLeft_eq]
        _ < 2 ^ 16 := by omega
    · calc (s / 2) &&& 0x0F ≤ 0x0F := Nat.and_le_right
      _ < 2 ^ 16 := by norm_num
  have hdate : dosDate ⟨y, mo, d, h, mi, s, ms⟩ < 2 ^ 16 := by
    rw [dosDate_of_modern _ (by exact hy)]
    apply Nat.or_lt_two_pow
    · apply Nat.or_lt_two_pow
      · have : (y - 1980) % 128 < 128 := Nat.mod_lt _ (by norm_num)
        calc ((y - 1980) % 128) <<< 9 = ((y - 1980) % 128) * 2 ^ 9 := by rw [Nat.shiftLeft_eq]
        _ < 2 ^ 16 := by omega
      · calc (mo + 1) <<< 5 = (mo + 1) * 2 ^ 5 := by rw [Nat.shiftLeft_eq]
        _ < 2 ^ 16 := by omega
    · show d < 2 ^ 16
      omega
  refine ⟨?_, rfl, dosDate_of_modern _ (by exact hy), dosTime_seconds_bits _, ?_, ?_⟩
  · apply buffer_eq_of_ok
    simp only [bufferOk, ts2buf, List.all_cons, List.all_nil, Bool.and_eq_true,
      decide_eq_true_eq]
    exact ⟨⟨by norm_num, lt_of_lt_of_le htime (by norm_num)⟩,
      ⟨by norm_num, lt_of_lt_of_le hdate (by norm_num)⟩, trivial⟩
  · intro h31
    rw [dosTime_seconds_bits]
    dsimp only
    rw [and_fifteen_of_le (by omega : s / 2 ≤ 15)]
  · intro hds
    simp [ts2buf, dosTime, dosDate, hds]

/-- Witness for the amended C7 at year 2021, 40 seconds. -/
theorem claim_C7_amended_witness :
    ((1980 : Nat) ≤ 2021 ∧ (4 : Nat) ≤ 11 ∧ (6 : Nat) ≤ 31 ∧ (7 : Nat) ≤ 23 ∧
      (8 : Nat) ≤ 59 ∧ (40 : Nat) ≤ 59) ∧
    (buffer (ts2buf ⟨2021, 4, 6, 7, 8, 40, 123⟩) =
      .ok (toLEBytes 2 (dosTime ⟨2021, 4, 6, 7, 8, 40, 123⟩) ++
           toLEBytes 2 (dosDate ⟨2021, 4, 6, 7, 8, 40, 123⟩)) ∧
    dosTime ⟨2021, 4, 6, 7, 8, 40, 123⟩ =
      (7 <<< 11) ||| (8 <<< 5) ||| ((40 / 2) &&& 0x0F) ∧
    dosDate ⟨2021, 4, 6, 7, 8, 40, 123⟩ =
      (((2021 - 1980) % 128) <<< 9) ||| ((4 + 1) <<< 5) ||| 6 ∧
    dosTime ⟨2021, 4, 6, 7, 8, 40, 123⟩ % 32 = (40 / 2) &&& 0x0F ∧
    ((40 : Nat) ≤ 31 → dosTime ⟨2021, 4, 6, 7, 8, 40, 123⟩ % 32 = 40 / 2) ∧
    ((40 : Nat) / 2 = 41 / 2 →
      ts2buf ⟨2021, 4, 6, 7, 8, 40, 123⟩ = ts2buf ⟨2021, 4, 6, 7, 8, 41, 999⟩)) :=
  ⟨⟨by decide, by decide, by decide, by decide, by decide, by decide⟩,
    claim_C7_amended 2021 4 6 7 8 40 41 123 999
      (by decide) (by decide) (by decide) (by decide) (by decide) (by decide)⟩

/-! ### Field preservation lemmas -/

theorem pushOut_fields (c : List Nat) (s : St) :
    (pushOut c s).limit = s.limit ∧ (pushOut c s).skip = s.skip ∧
    (pushOut c s).cache = s.cache ∧ (pushOut c s).centralDir = s.centralDir ∧
    (pushOut c s).numberOfFiles = s.numberOfFiles ∧
    (pushOut c s).dataWritten = s.dataWritten ∧ (pushOut c s).finished = s.finished ∧
    (pushOut c s).ended = s.ended := by
  unfold pushOut
  split <;> simp

theorem pushEmit_fields (c : List Nat) (s : St) :
    (pushEmit c s).limit = s.limit ∧ (pushEmit c s).skip = s.skip ∧
    (pushEmit c s).cache = s.cache ∧ (pushEmit c s).centralDir = s.centralDir ∧
    (pushEmit c s).numberOfFiles = s.numberOfFiles ∧
    (pushEmit c s).dataWritten = s.dataWritten := by
  unfold pushEmit earlyClose
  split
  · split
    · simp [pushOut_fields]
    · simp [pushOut_fields]
  · simp [pushOut_fields]

theorem pushEmit_ended_of_none (c : List Nat) (s : St) (h : s.limit = none) :
    (pushEmit c s).ended = s.ended ∧ (pushEmit c s).finished = s.finished := by
  unfold pushEmit
  rw [h]
  simp [pushOut_fields]

theorem zipPush_fields (c : List Nat) (s : St) :
    (zipPush c s).limit = s.limit ∧ (zipPush c s).cache = s.cache ∧
    (zipPush c s).centralDir = s.centralDir ∧
    (zipPush c s).numberOfFiles = s.numberOfFiles := by
  unfold zipPush
  split
  · simp
  · dsimp only
    split
    · split
      · simp
      · exact ⟨(pushEmit_fields _ _).1, (pushEmit_fields _ _).2.2.1,
          (pushEmit_fields _ _).2.2.2.1, (pushEmit_fields _ _).2.2.2.2.1⟩
    · exact ⟨(pushEmit_fields _ _).1, (pushEmit_fields _ _).2.2.1,
        (pushEmit_fields _ _).2.2.2.1, (pushEmit_fields _ _).2.2.2.2.1⟩

theorem zipPush_ended_of_none (c : List Nat) (s : St) (h : s.limit = none) :
    (zipPush c s).ended = s.ended ∧ (zipPush c s).finished = s.finished := by
  unfold zipPush
  split
  · simp
  · dsimp only
    split
    · split
      · simp
      · exact pushEmit_ended_of_none _ _ h
    · exact pushEmit_ended_of_none _ _ h

theorem zipPushPairs_fields (ps : List (Nat × Nat)) (s : St) :
    (zipPushPairs ps s).limit = s.limit ∧ (zipPushPairs ps s).cache = s.cache ∧
    (zipPushPairs ps s).centralDir = s.centralDir ∧
    (zipPushPairs ps s).numberOfFiles = s.numberOfFiles := by
  unfold zipPushPairs
  split
  · simp
  · split
    · exact zipPush_fields _ _
    · simp

theorem zipPushPairs_ended_of_none (ps : List (Nat × Nat)) (s : St) (h : s.limit = none) :
    (zipPushPairs ps s).ended = s.ended ∧ (zipPushPairs ps s).finished = s.finished := by
  unfold zipPushPairs
  split
  · simp
  · split
    · exact zipPush_ended_of_none _ _ h
    · simp

theorem closeEntry_fields (s : St) (e : CDEntry) :
    (closeEntry s e).limit = s.limit ∧ (closeEntry s e).cache = s.cache ∧
    (closeEntry s e).centralDir = s.centralDir ∧
    (closeEntry s e).numberOfFiles = s.numberOfFiles := by
  unfold closeEntry
  split
  · simp
  · split
    · simp
    · refine ⟨?_, ?_, ?_, ?_⟩ <;>
        simp [zipPush_fields, zipPushPairs_fields,
          (zipPush_fields _ _).1, (zipPush_fields _ _).2.1]

theorem push3_ended_of_none (ps : List (Nat × Nat)) (b1 b2 : List Nat) (s : St)
    (h : s.limit = none) :
    (zipPush b2 (zipPush b1 (zipPushPairs ps s))).ended = s.ended := by
  have h1 : (zipPushPairs ps s).limit = none := by
    rw [(zipPushPairs_fields _ _).1]
    exact h
  have h2 : (zipPush b1 (zipPushPairs ps s)).limit = none := by
    rw [(zipPush_fields _ _).1]
    exact h1
  rw [(zipPush_ended_of_none _ _ h2).1, (zipPush_ended_of_none _ _ h1).1,
    (zipPushPairs_ended_of_none _ _ h).1]

theorem closeEntry_ended_of_none (s : St) (e : CDEntry) (h : s.limit = none) :
    (closeEntry s e).ended = s.ended := by
  unfold closeEntry
  split
  · rfl
  · split
    · rfl
    · exact push3_ended_of_none _ _ _ s h

theorem closeEntry_fold_fields (es : List CDEntry) (s : St) :
    ((es.foldl closeEntry s)).limit = s.limit ∧
    ((es.foldl closeEntry s)).numberOfFiles = s.numberOfFiles ∧
    ((es.foldl closeEntry s)).centralDir = s.centralDir := by
  induction es generalizing s with
  | nil => exact ⟨rfl, rfl, rfl⟩
  | cons e rest ih =>
      rw [List.foldl_cons]
      refine ⟨?_, ?_, ?_⟩
      · rw [(ih (closeEntry s e)).1, (closeEntry_fields s e).1]
      · rw [(ih (closeEntry s e)).2.1, (closeEntry_fields s e).2.2.2]
      · rw [(ih (closeEntry s e)).2.2, (closeEntry_fields s e).2.2.1]

theorem closeEntry_fold_ended_of_none (es : List CDEntry) (s : St) (h : s.limit = none) :
    ((es.foldl closeEntry s)).ended = s.ended := by
  induction es generalizing s with
  | nil => rfl
  | cons e rest ih =>
      rw [List.foldl_cons]
      rw [ih (closeEntry s e) (by rw [(closeEntry_fields s e).1]; exact h)]
      exact closeEntry_ended_of_none s e h

theorem pushPairs_fold_fields (pss : List (List (Nat × Nat))) (s : St) :
    ((pss.foldl (fun s ps => zipPushPairs ps s) s)).limit = s.limit ∧
    ((pss.foldl (fun s ps => zipPushPairs ps s) s)).numberOfFiles = s.numberOfFiles := by
  induction pss generalizing s with
  | nil => exact ⟨rfl, rfl⟩
  | cons ps rest ih =>
      rw [List.foldl_cons]
      refine ⟨?_, ?_⟩
      · rw [(ih (zipPushPairs ps s)).1, (zipPushPairs_fields _ _).1]
      · rw [(ih (zipPushPairs ps s)).2, (zipPushPairs_fields _ _).2.2.2]

theorem pushPairs_fold_ended_of_none (pss : List (List (Nat × Nat))) (s : St)
    (h : s.limit = none) :
    ((pss.foldl (fun s ps => zipPushPairs ps s) s)).ended = s.ended := by
  induction pss generalizing s with
  | nil => rfl
  | cons ps rest ih =>
      rw [List.foldl_cons]
      rw [ih (zipPushPairs ps s) (by rw [(zipPushPairs_fields _ _).1]; exact h)]
      exact (zipPushPairs_ended_of_none _ _ h).1

theorem zipPushPairs_errored_of_bad {ps : List (Nat × Nat)} (s : St)
    (hbad : bufferOk ps = false) : (zipPushPairs ps s).errored = true := by
  by_cases he : s.errored = true
  · rw [zipPushPairs_of_errored he]
    exact he
  · rw [zipPushPairs, if_neg (by simpa using he)]
    cases hb : buffer ps with
    | ok bs => exact absurd (buffer_ok_inv hb).1 (by simp [hbad])
    | error e => rfl

theorem pushPairs_fold_append_bad (A : List (List (Nat × Nat))) (ps : List (Nat × Nat))
    (s : St) (hlim : s.limit = none) (hend : s.ended = false)
    (hbad : bufferOk ps = false) :
    (((A ++ [ps]).foldl (fun s ps => zipPushPairs ps s) s)).errored = true ∧
    (((A ++ [ps]).foldl (fun s ps => zipPushPairs ps s) s)).ended = false := by
  rw [List.foldl_append, List.foldl_cons, List.foldl_nil]
  set sA := A.foldl (fun s ps => zipPushPairs ps s) s with hsA
  have hAl : sA.limit = none := by
    rw [hsA, (pushPairs_fold_fields _ _).1]
    exact hlim
  have hAe : sA.ended = false := by
    rw [hsA, pushPairs_fold_ended_of_none _ _ hlim]
    exact hend
  refine ⟨zipPushPairs_errored_of_bad sA hbad, ?_⟩
  rw [(zipPushPairs_ended_of_none _ _ hAl).1]
  exact hAe

/-- Claim C10: the entry-count fields of the classic end-of-central-directory
record are written as 2-byte little-endian fields holding exactly
`this.numberOfFiles`; the zip64 end-of-central-directory and locator records
are emitted exactly when the central directory's starting offset exceeds
`2^31 - 1` — the entry counts play no role in that condition; hence for at
most 65535 entries the count fields are exact, while for more entries the
2-byte write faults (and the stream stalls without ever reaching
`push(null)`) instead of emitting sentinel counts with a zip64 end record. -/
theorem claim_C10 (n nof cs co after : Nat) (s : St) :
    (nof < 2 ^ 16 → cs < 2 ^ 32 → co < 2 ^ 32 →
      buffer (eocd nof cs co) =
        .ok (toLEBytes 4 0x06054b50 ++ toLEBytes 4 0 ++ toLEBytes 2 nof ++
             toLEBytes 2 nof ++ toLEBytes 4 cs ++ toLEBytes 4 co ++ toLEBytes 2 0)) ∧
    (ZIP64_LIMIT < co → endRecords n nof cs co after =
      [zip64End n cs co, zip64Locator after, eocd nof cs 0xFFFFFFFF]) ∧
    (¬ ZIP64_LIMIT < co → endRecords n nof cs co after = [eocd nof cs co]) ∧
    (65535 < s.numberOfFiles → s.ended = false → s.limit = none →
      (closeArchive s).errored = true ∧ (closeArchive s).ended = false) := by
  refine ⟨?_, ?_, ?_, ?_⟩
  · intro h1 h2 h3
    rw [buffer_eq_of_ok (by
      simp only [bufferOk, eocd, List.all_cons, List.all_nil, Bool.and_eq_true,
        decide_eq_true_eq]
      refine ⟨⟨by norm_num, by norm_num⟩, ⟨by norm_num, by norm_num⟩,
        ⟨by norm_num, by omega⟩, ⟨by norm_num, by omega⟩,
        ⟨by norm_num, by omega⟩, ⟨by norm_num, by omega⟩,
        ⟨by norm_num, by norm_num⟩, trivial⟩)]
    simp [pairsBytes, eocd]
  · intro h
    rw [endRecords, if_pos h, if_pos h]
    rfl
  · intro h
    rw [endRecords, if_neg h, if_neg h]
    rfl
  · intro hn hend hlim
    obtain ⟨dw, sk, lim, fin, en, er, o, cd, nof2, ca⟩ := s
    simp only at hn hend hlim
    subst hend hlim
    rw [closeArchive]
    dsimp only
    rw [endRecords]
    have hfold := closeEntry_fold_fields cd (St.mk dw sk none true false er o cd nof2 ca)
    have hfl : ((List.foldl closeEntry (St.mk dw sk none true false er o cd nof2 ca)
        cd)).limit = none := hfold.1
    have hfe : ((List.foldl closeEntry (St.mk dw sk none true false er o cd nof2 ca)
        cd)).ended = false :=
      closeEntry_fold_ended_of_none cd (St.mk dw sk none true false er o cd nof2 ca) rfl
    have hfn : ((List.foldl closeEntry (St.mk dw sk none true false er o cd nof2 ca)
        cd)).numberOfFiles = nof2 := hfold.2.1
    have hbig : ¬ ((List.foldl closeEntry (St.mk dw sk none true false er o cd nof2 ca)
        cd)).numberOfFiles < 256 ^ 2 := by
      rw [hfn]
      omega
    have hbad : bufferOk (eocd
        ((List.foldl closeEntry (St.mk dw sk none true false er o cd nof2 ca)
          cd)).numberOfFiles
        (((List.foldl closeEntry (St.mk dw sk none true false er o cd nof2 ca)
          cd)).dataWritten - dw)
        (if ZIP64_LIMIT < dw then 0xFFFFFFFF else dw)) = false := by
      simp only [bufferOk, eocd, List.all_cons, Bool.and_eq_true, decide_eq_true_eq,
        Bool.and_eq_false_iff]
      simp
      left
      rw [hfn]
      omega
    have h1 := pushPairs_fold_append_bad
      (if ZIP64_LIMIT < dw then
        [zip64End ((List.foldl closeEntry (St.mk dw sk none true false er o cd nof2 ca)
            cd)).centralDir.length
          (((List.foldl closeEntry (St.mk dw sk none true false er o cd nof2 ca)
            cd)).dataWritten - dw) dw,
         zip64Locator ((List.foldl closeEntry (St.mk dw sk none true false er o cd nof2 ca)
            cd)).dataWritten]
      else []) _ _ hfl hfe hbad
    rw [if_pos h1.1]
    exact ⟨h1.1, h1.2⟩

/-- Witness for C10: exact 2-byte counts at 2 entries, zip64 end records only
for an overflowing central directory offset, and the 70000-file fault. -/
theorem claim_C10_witness :
    buffer (eocd 2 48 32) =
      .ok (toLEBytes 4 0x06054b50 ++ toLEBytes 4 0 ++ toLEBytes 2 2 ++
           toLEBytes 2 2 ++ toLEBytes 4 48 ++ toLEBytes 4 32 ++ toLEBytes 2 0) ∧
    endRecords 1 2 48 5000000000 80 =
      [zip64End 1 48 5000000000, zip64Locator 80, eocd 2 48 0xFFFFFFFF] ∧
    endRecords 1 2 48 32 80 = [eocd 2 48 32] ∧
    ((closeArchive { initSt [] with numberOfFiles := 70000 }).errored = true ∧
     (closeArchive { initSt [] with numberOfFiles := 70000 }).ended = false) :=
  ⟨(claim_C10 1 2 48 32 80 (initSt [])).1 (by decide) (by decide) (by decide),
   (claim_C10 1 2 48 5000000000 80 (initSt [])).2.1 (by decide),
   (claim_C10 1 2 48 32 80 (initSt [])).2.2.1 (by decide),
   (claim_C10 1 2 48 32 80 { initSt [] with numberOfFiles := 70000 }).2.2.2
     (by decide) (by decide) (by decide)⟩

/-- Claim C5: a cached checksum is used for a source iff the cache holds the
source's identity (`sourcePath`, non-empty) with a stored modification
timestamp exactly equal as a time value (`Number(ts)`) to the source's; on
normal completion of streaming a source (positive size, unranged stream, no
fault), the entry's final checksum — the cached value on a hit, otherwise the
CRC folded over the streamed bytes from `crc32function('')` — is recorded in
the queued central directory entry and written back to the cache under that
identity and timestamp. -/
theorem claim_C5 (crcFn : List Nat → Nat → Nat) (f : ZipSource) (s : St)
    (hsk : s.skip = 0) (hl : s.limit = none) (hf : s.finished = false)
    (he : s.ended = false) (her : s.errored = false) (hpos : 0 < f.size)
    (herr : (readFile crcFn f s).errored = false) :
    (hitB s.cache f.sourcePath f.ts = true ↔
      ∃ c, cacheLookup s.cache f.sourcePath = some c ∧ c.ts.ms = f.ts.ms) ∧
    (readFile crcFn f s).centralDir = s.centralDir ++
      [{ size := f.size, crc := entryCrc crcFn s.cache f, ts := f.ts
         pathAsBuffer := f.path, offset := s.dataWritten, version := 20
         extAttr := extAttrOf f.mode }] ∧
    (entryCrc crcFn s.cache f =
      if hitB s.cache f.sourcePath f.ts = true
      then crcInit crcFn s.cache f.sourcePath f.ts
      else f.data.foldl (fun a c => crcFn c a) (crcFn [] 0)) ∧
    (∀ c, cacheLookup s.cache f.sourcePath = some c → c.ts.ms = f.ts.ms →
      entryCrc crcFn s.cache f = c.crc) ∧
    (readFile crcFn f s).cache =
      cacheWrite s.cache f.sourcePath f.ts (entryCrc crcFn s.cache f) ∧
    (∀ p, f.sourcePath = some p → p ≠ "" →
      cacheLookup ((readFile crcFn f s).cache) (some p) =
        some ⟨f.ts, entryCrc crcFn s.cache f⟩) := by
  obtain ⟨hrf, -⟩ := readFile_unranged crcFn f s hsk hl hf he her herr
  have hcond : ¬ (f.size = 0 ∧ hitB s.cache f.sourcePath f.ts = true) := by
    intro hc
    omega
  refine ⟨?_, ?_, ?_, ?_, ?_, ?_⟩
  · rw [hitB]
    cases hx : cacheLookup s.cache f.sourcePath with
    | none => simp [hx]
    | some c => simp [hx]
  · rw [hrf]
  · rfl
  · intro c hc hms
    rw [entryCrc, if_pos (by rw [hitB, hc]; simpa using hms), crcInit, hc]
    simp [hms]
  · rw [hrf]
    show nextCache crcFn s.cache f = _
    rw [nextCache, if_neg hcond]
  · intro p hp hne
    rw [hrf]
    show cacheLookup (nextCache crcFn s.cache f) (some p) = _
    rw [nextCache, if_neg hcond, hp]
    simp only [cacheWrite]
    rw [if_neg hne]
    simp only [cacheLookup]
    rw [if_neg hne]
    simp [List.lookup]

/-- Witness for C5 at a one-source stream whose cache holds a matching entry. -/
theorem claim_C5_witness :
    (((initSt [("sp", ⟨⟨2020, 0, 1, 0, 0, 0, 0⟩, 77⟩)]).skip = 0 ∧
      (initSt [("sp", ⟨⟨2020, 0, 1, 0, 0, 0, 0⟩, 77⟩)]).limit = none ∧
      (0 : Nat) < 2 ∧
      (readFile (fun _ a => a)
        (ZipSource.mk [97] (some "sp") [[1, 2]] 2 ⟨2020, 0, 1, 0, 0, 0, 0⟩ 0)
        (initSt [("sp", ⟨⟨2020, 0, 1, 0, 0, 0, 0⟩, 77⟩)])).errored = false) ∧
    ((hitB (initSt [("sp", ⟨⟨2020, 0, 1, 0, 0, 0, 0⟩, 77⟩)]).cache (some "sp")
        ⟨2020, 0, 1, 0, 0, 0, 0⟩ = true ↔
      ∃ c, cacheLookup (initSt [("sp", ⟨⟨2020, 0, 1, 0, 0, 0, 0⟩, 77⟩)]).cache
          (some "sp") = some c ∧ c.ts.ms = (⟨2020, 0, 1, 0, 0, 0, 0⟩ : JsDate).ms) ∧
    (readFile (fun _ a => a)
        (ZipSource.mk [97] (some "sp") [[1, 2]] 2 ⟨2020, 0, 1, 0, 0, 0, 0⟩ 0)
        (initSt [("sp", ⟨⟨2020, 0, 1, 0, 0, 0, 0⟩, 77⟩)])).centralDir =
      (initSt [("sp", ⟨⟨2020, 0, 1, 0, 0, 0, 0⟩, 77⟩)]).centralDir ++
      [{ size := 2
         crc := entryCrc (fun _ a => a) (initSt [("sp", ⟨⟨2020, 0, 1, 0, 0, 0, 0⟩, 77⟩)]).cache
           (ZipSource.mk [97] (some "sp") [[1, 2]] 2 ⟨2020, 0, 1, 0, 0, 0, 0⟩ 0)
         ts := ⟨2020, 0, 1, 0, 0, 0, 0⟩, pathAsBuffer := [97]
         offset := (initSt [("sp", ⟨⟨2020, 0, 1, 0, 0, 0, 0⟩, 77⟩)]).dataWritten
         version := 20, extAttr := extAttrOf 0 }] ∧
    (entryCrc (fun _ a => a) (initSt [("sp", ⟨⟨2020, 0, 1, 0, 0, 0, 0⟩, 77⟩)]).cache
        (ZipSource.mk [97] (some "sp") [[1, 2]] 2 ⟨2020, 0, 1, 0, 0, 0, 0⟩ 0) =
      if hitB (initSt [("sp", ⟨⟨2020, 0, 1, 0, 0, 0, 0⟩, 77⟩)]).cache (some "sp")
          ⟨2020, 0, 1, 0, 0, 0, 0⟩ = true
      then crcInit (fun _ a => a) (initSt [("sp", ⟨⟨2020, 0, 1, 0, 0, 0, 0⟩, 77⟩)]).cache
        (some "sp") ⟨2020, 0, 1, 0, 0, 0, 0⟩
      else [[1, 2]].foldl (fun a c => (fun _ a => a) c a) ((fun _ a => a) ([] : List Nat) 0)) ∧
    (∀ c, cacheLookup (initSt [("sp", ⟨⟨2020, 0, 1, 0, 0, 0, 0⟩, 77⟩)]).cache (some "sp") =
        some c → c.ts.ms = (⟨2020, 0, 1, 0, 0, 0, 0⟩ : JsDate).ms →
      entryCrc (fun _ a => a) (initSt [("sp", ⟨⟨2020, 0, 1, 0, 0, 0, 0⟩, 77⟩)]).cache
        (ZipSource.mk [97] (some "sp") [[1, 2]] 2 ⟨2020, 0, 1, 0, 0, 0, 0⟩ 0) = c.crc) ∧
    (readFile (fun _ a => a)
        (ZipSource.mk [97] (some "sp") [[1, 2]] 2 ⟨2020, 0, 1, 0, 0, 0, 0⟩ 0)
        (initSt [("sp", ⟨⟨2020, 0, 1, 0, 0, 0, 0⟩, 77⟩)])).cache =
      cacheWrite (initSt [("sp", ⟨⟨2020, 0, 1, 0, 0, 0, 0⟩, 77⟩)]).cache (some "sp")
        ⟨2020, 0, 1, 0, 0, 0, 0⟩
        (entryCrc (fun _ a => a) (initSt [("sp", ⟨⟨2020, 0, 1, 0, 0, 0, 0⟩, 77⟩)]).cache
          (ZipSource.mk [97] (some "sp") [[1, 2]] 2 ⟨2020, 0, 1, 0, 0, 0, 0⟩ 0)) ∧
    (∀ p, (some "sp" : Option String) = some p → p ≠ "" →
      cacheLookup ((readFile (fun _ a => a)
          (ZipSource.mk [97] (some "sp") [[1, 2]] 2 ⟨2020, 0, 1, 0, 0, 0, 0⟩ 0)
          (initSt [("sp", ⟨⟨2020, 0, 1, 0, 0, 0, 0⟩, 77⟩)])).cache) (some p) =
        some ⟨⟨2020, 0, 1, 0, 0, 0, 0⟩,
          entryCrc (fun _ a => a) (initSt [("sp", ⟨⟨2020, 0, 1, 0, 0, 0, 0⟩, 77⟩)]).cache
            (ZipSource.mk [97] (some "sp") [[1, 2]] 2 ⟨2020, 0, 1, 0, 0, 0, 0⟩ 0)⟩))) :=
  ⟨⟨by decide, by decide, by decide, by decide⟩,
    claim_C5 (fun _ a => a)
      (ZipSource.mk [97] (some "sp") [[1, 2]] 2 ⟨2020, 0, 1, 0, 0, 0, 0⟩ 0)
      (initSt [("sp", ⟨⟨2020, 0, 1, 0, 0, 0, 0⟩, 77⟩)])
      (by decide) (by decide) (by decide) (by decide) (by decide) (by decide) (by decide)⟩

/-- Claim C6: when the checksum cache is trusted for a source and the
remaining skip window after the local header and path covers the source's
whole data, the generator never invokes the deferred `getData` factory (the
result does not depend on the data chunks at all): it advances the running
offset by the entry's `size`, records the cached checksum in the queued
central directory entry, emits no data bytes for the entry, leaves the cache
untouched and returns to the idle (not finished) state. -/
theorem claim_C6 (crcFn : List Nat → Nat → Nat) (f : ZipSource)
    (d d2 : List (List Nat)) (s : St)
    (hf : s.finished = false) (her : s.errored = false)
    (hok : bufferOk (localHeader f 20) = true)
    (hhit : hitB s.cache f.sourcePath f.ts = true)
    (hskip : f.size ≤ (zipPush f.path (zipPushPairs (localHeader f 20)
        { s with numberOfFiles := s.numberOfFiles + 1 })).skip)
    (hfin : (zipPush f.path (zipPushPairs (localHeader f 20)
        { s with numberOfFiles := s.numberOfFiles + 1 })).finished = false) :
    readFile crcFn { f with data := d } s = readFile crcFn { f with data := d2 } s ∧
    readFile crcFn { f with data := d } s =
      { (zipPush f.path (zipPushPairs (localHeader f 20)
          { s with numberOfFiles := s.numberOfFiles + 1 })) with
        skip := (zipPush f.path (zipPushPairs (localHeader f 20)
          { s with numberOfFiles := s.numberOfFiles + 1 })).skip - f.size
        dataWritten := (zipPush f.path (zipPushPairs (localHeader f 20)
          { s with numberOfFiles := s.numberOfFiles + 1 })).dataWritten + f.size
        centralDir := (zipPush f.path (zipPushPairs (localHeader f 20)
          { s with numberOfFiles := s.numberOfFiles + 1 })).centralDir ++
          [{ size := f.size, crc := crcInit crcFn s.cache f.sourcePath f.ts, ts := f.ts
             pathAsBuffer := f.path, offset := s.dataWritten, version := 20
             extAttr := extAttrOf f.mode }] } ∧
    (readFile crcFn { f with data := d } s).out =
      (zipPush f.path (zipPushPairs (localHeader f 20)
        { s with numberOfFiles := s.numberOfFiles + 1 })).out ∧
    (readFile crcFn { f with data := d } s).finished = false ∧
    (readFile crcFn { f with data := d } s).cache = s.cache := by
  have hcache : (zipPush f.path (zipPushPairs (localHeader f 20)
      { s with numberOfFiles := s.numberOfFiles + 1 })).cache = s.cache := by
    rw [(zipPush_fields _ _).2.1, (zipPushPairs_fields _ _).2.1]
  have herr1 : (zipPush f.path (zipPushPairs (localHeader f 20)
      { s with numberOfFiles := s.numberOfFiles + 1 })).errored = false := by
    rw [zipPush_errored,
      zipPushPairs_of_buffer (buffer_eq_of_ok hok)
        (show ({ s with numberOfFiles := s.numberOfFiles + 1 } : St).errored = false from her),
      zipPush_errored]
    exact her
  have key : ∀ dd : List (List Nat), readFile crcFn { f with data := dd } s =
      { (zipPush f.path (zipPushPairs (localHeader f 20)
          { s with numberOfFiles := s.numberOfFiles + 1 })) with
        skip := (zipPush f.path (zipPushPairs (localHeader f 20)
          { s with numberOfFiles := s.numberOfFiles + 1 })).skip - f.size
        dataWritten := (zipPush f.path (zipPushPairs (localHeader f 20)
          { s with numberOfFiles := s.numberOfFiles + 1 })).dataWritten + f.size
        centralDir := (zipPush f.path (zipPushPairs (localHeader f 20)
          { s with numberOfFiles := s.numberOfFiles + 1 })).centralDir ++
          [{ size := f.size, crc := crcInit crcFn s.cache f.sourcePath f.ts, ts := f.ts
             pathAsBuffer := f.path, offset := s.dataWritten, version := 20
             extAttr := extAttrOf f.mode }] } := by
    intro dd
    rw [readFile]
    rw [if_neg (by simp [hf, her])]
    dsimp only
    rw [show localHeader (ZipSource.mk f.path f.sourcePath dd f.size f.ts f.mode) 20 =
      localHeader f 20 from rfl]
    rw [if_neg (by simp [hfin])]
    rw [if_neg (by simp [herr1])]
    rw [if_pos ⟨hskip, by rw [hcache]; exact hhit⟩]
    rw [hcache]
  refine ⟨(key d).trans (key d2).symm, key d, ?_, ?_, ?_⟩
  · rw [key d]
  · rw [key d]
    exact hfin
  · rw [key d]
    exact hcache

/-- Witness for C6: a ranged stream whose skip window swallows the whole
trusted entry; the two instantiations differ in the (never-read) data. -/
theorem claim_C6_witness :
    ((applyRange 100 200 (initSt [("sp", ⟨⟨2020, 0, 1, 0, 0, 0, 0⟩, 88⟩)])).finished = false ∧
     (applyRange 100 200 (initSt [("sp", ⟨⟨2020, 0, 1, 0, 0, 0, 0⟩, 88⟩)])).errored = false ∧
     bufferOk (localHeader
       (ZipSource.mk [97] (some "sp") [[1, 2]] 2 ⟨2020, 0, 1, 0, 0, 0, 0⟩ 0) 20) = true ∧
     hitB (applyRange 100 200 (initSt [("sp", ⟨⟨2020, 0, 1, 0, 0, 0, 0⟩, 88⟩)])).cache
       (some "sp") ⟨2020, 0, 1, 0, 0, 0, 0⟩ = true) ∧
    (readFile (fun _ a => a)
      { ZipSource.mk [97] (some "sp") [[1, 2]] 2 ⟨2020, 0, 1, 0, 0, 0, 0⟩ 0 with
        data := [[9, 9]] }
      (applyRange 100 200 (initSt [("sp", ⟨⟨2020, 0, 1, 0, 0, 0, 0⟩, 88⟩)])) =
     readFile (fun _ a => a)
      { ZipSource.mk [97] (some "sp") [[1, 2]] 2 ⟨2020, 0, 1, 0, 0, 0, 0⟩ 0 with
        data := [] }
      (applyRange 100 200 (initSt [("sp", ⟨⟨2020, 0, 1, 0, 0, 0, 0⟩, 88⟩)])) ∧
     (readFile (fun _ a => a)
      { ZipSource.mk [97] (some "sp") [[1, 2]] 2 ⟨2020, 0, 1, 0, 0, 0, 0⟩ 0 with
        data := [[9, 9]] }
      (applyRange 100 200 (initSt [("sp", ⟨⟨2020, 0, 1, 0, 0, 0, 0⟩, 88⟩)]))).out = [] ∧
     (readFile (fun _ a => a)
      { ZipSource.mk [97] (some "sp") [[1, 2]] 2 ⟨2020, 0, 1, 0, 0, 0, 0⟩ 0 with
        data := [[9, 9]] }
      (applyRange 100 200 (initSt [("sp", ⟨⟨2020, 0, 1, 0, 0, 0, 0⟩, 88⟩)]))).finished = false ∧
     (readFile (fun _ a => a)
      { ZipSource.mk [97] (some "sp") [[1, 2]] 2 ⟨2020, 0, 1, 0, 0, 0, 0⟩ 0 with
        data := [[9, 9]] }
      (applyRange 100 200 (initSt [("sp", ⟨⟨2020, 0, 1, 0, 0, 0, 0⟩, 88⟩)]))).cache =
      (applyRange 100 200 (initSt [("sp", ⟨⟨2020, 0, 1, 0, 0, 0, 0⟩, 88⟩)])).cache) := by
  have h := claim_C6 (fun _ a => a)
    (ZipSource.mk [97] (some "sp") [[1, 2]] 2 ⟨2020, 0, 1, 0, 0, 0, 0⟩ 0)
    [[9, 9]] []
    (applyRange 100 200 (initSt [("sp", ⟨⟨2020, 0, 1, 0, 0, 0, 0⟩, 88⟩)]))
    (by decide) (by decide) (by decide) (by decide) (by decide) (by decide)
  refine ⟨⟨by decide, by decide, by decide, by decide⟩, h.1, ?_, h.2.2.2.1, h.2.2.2.2⟩
  rw [h.2.2.1]
  decide

/-- Claim C2 evaluation at the failing input: for a single zero-size source
with a two-byte path, `applyRange(29, 30)` emits five bytes — byte 29 of the
local header, both path bytes, and the first two bytes of the central
directory record — instead of the two-byte inclusive slice `[29, 30]` of the
102-byte unranged output: `_push` compares `this.limit` against each chunk
but never decreases it, so whole chunks no longer than the original window
keep flowing after the window is exhausted. -/
theorem claim_C2_failing :
    (runRanged (fun _ a => a) []
      [ZipSource.mk [97, 98] none [] 0 ⟨2020, 0, 1, 0, 0, 0, 0⟩ 0] 29 30).out ≠
      ((runUnranged (fun _ a => a) []
        [ZipSource.mk [97, 98] none [] 0 ⟨2020, 0, 1, 0, 0, 0, 0⟩ 0]).out.drop 29).take 2 ∧
    (runRanged (fun _ a => a) []
      [ZipSource.mk [97, 98] none [] 0 ⟨2020, 0, 1, 0, 0, 0, 0⟩ 0] 29 30).out.length = 5 ∧
    (runUnranged (fun _ a => a) []
      [ZipSource.mk [97, 98] none [] 0 ⟨2020, 0, 1, 0, 0, 0, 0⟩ 0]).out.length = 102 ∧
    (((runUnranged (fun _ a => a) []
      [ZipSource.mk [97, 98] none [] 0 ⟨2020, 0, 1, 0, 0, 0, 0⟩ 0]).out.drop 29).take 2).length
      = 2 := by
  refine ⟨by decide, by decide, by decide, by decide⟩

/-! ### Lockstep analysis between a ranged and the unranged run (C9) -/

/-- Two caches that agree, key for key, on the stored time value and
checksum. -/
def cacheEquiv (c1 c2 : CrcCache) : Prop :=
  ∀ p : String,
    match c1.lookup p, c2.lookup p with
    | some a, some b => a.ts.ms = b.ts.ms ∧ a.crc = b.crc
    | none, none => True
    | _, _ => False

theorem cacheEquiv_refl (c : CrcCache) : cacheEquiv c c := by
  intro p
  cases c.lookup p <;> simp

theorem cacheEquiv_lookup {c1 c2 : CrcCache} (h : cacheEquiv c1 c2) (sp : Option String) :
    match cacheLookup c1 sp, cacheLookup c2 sp with
    | some a, some b => a.ts.ms = b.ts.ms ∧ a.crc = b.crc
    | none, none => True
    | _, _ => False := by
  cases sp with
  | none => simp [cacheLookup]
  | some p =>
      by_cases hp : p = ""
      · simp [cacheLookup, hp]
      · simpa [cacheLookup, hp] using h p

theorem cacheEquiv_hitB {c1 c2 : CrcCache} (h : cacheEquiv c1 c2) (sp : Option String)
    (ts : JsDate) : hitB c1 sp ts = hitB c2 sp ts := by
  have := cacheEquiv_lookup h sp
  rw [hitB, hitB]
  cases h1 : cacheLookup c1 sp with
  | none =>
      cases h2 : cacheLookup c2 sp with
      | none => rfl
      | some b => rw [h1, h2] at this; exact this.elim
  | some a =>
      cases h2 : cacheLookup c2 sp with
      | none => rw [h1, h2] at this; exact this.elim
      | some b =>
          rw [h1, h2] at this
          simp [this.1]

theorem cacheEquiv_crcInit {c1 c2 : CrcCache} (h : cacheEquiv c1 c2)
    (crcFn : List Nat → Nat → Nat) (sp : Option String) (ts : JsDate) :
    crcInit crcFn c1 sp ts = crcInit crcFn c2 sp ts := by
  have hl := cacheEquiv_lookup h sp
  rw [crcInit, crcInit]
  cases h1 : cacheLookup c1 sp with
  | none =>
      cases h2 : cacheLookup c2 sp with
      | none => rfl
      | some b => rw [h1, h2] at hl; exact hl.elim
  | some a =>
      cases h2 : cacheLookup c2 sp with
      | none => rw [h1, h2] at hl; exact hl.elim
      | some b =>
          rw [h1, h2] at hl
          obtain ⟨hms, hcrc⟩ := hl
          dsimp only
          rw [hms, hcrc]

theorem cacheEquiv_write {c1 c2 : CrcCache} (h : cacheEquiv c1 c2)
    (sp : Option String) (ts : JsDate) (crc : Nat) :
    cacheEquiv (cacheWrite c1 sp ts crc) (cacheWrite c2 sp ts crc) := by
  cases sp with
  | none => exact h
  | some p =>
      by_cases hp : p = ""
      · simpa [cacheWrite, hp] using h
      · intro q
        simp only [cacheWrite, if_neg hp]
        by_cases hq : q = p
        · subst hq
          simp [List.lookup]
        · have hqp : (q == p) = false := by
            simpa using hq
          simp only [List.lookup, hqp]
          exact h q

theorem cacheEquiv_hit_write {c1 c2 : CrcCache} (h : cacheEquiv c1 c2)
    (crcFn : List Nat → Nat → Nat) (sp : Option String) (ts : JsDate)
    (hhit : hitB c1 sp ts = true) :
    cacheEquiv c1 (cacheWrite c2 sp ts (crcInit crcFn c2 sp ts)) := by
  cases sp with
  | none => exact h
  | some p =>
      by_cases hp : p = ""
      · simpa [cacheWrite, hp] using h
      · intro q
        simp only [cacheWrite, if_neg hp]
        by_cases hq : q = p
        · subst hq
          simp only [List.lookup, beq_self_eq_true, if_pos]
          have hl := cacheEquiv_lookup h (some q)
          rw [hitB] at hhit
          cases h1 : cacheLookup c1 (some q) with
          | none => rw [h1] at hhit; simp at hhit
          | some a =>
              rw [h1] at hhit
              have hms : a.ts.ms = ts.ms := by simpa using hhit
              have h1' : c1.lookup q = some a := by
                simpa [cacheLookup, hp] using h1
              rw [h1']
              cases h2 : cacheLookup c2 (some q) with
              | none => rw [h1, h2] at hl; exact hl.elim
              | some b =>
                  rw [h1, h2] at hl
                  obtain ⟨hms2, hcrc⟩ := hl
                  rw [crcInit, h2]
                  dsimp only
                  rw [if_pos (by simp [← hms2, hms])]
                  exact ⟨by rw [hms], hcrc⟩
        · have hqp : (q == p) = false := by
            simpa using hq
          simp only [List.lookup, hqp]
          exact h q

theorem zipPush_dataWritten (c : List Nat) (s : St) (her : s.errored = false) :
    (zipPush c s).dataWritten = s.dataWritten + c.length := by
  unfold zipPush
  rw [if_neg (by simp [her])]
  dsimp only
  split
  · split
    · rfl
    · rw [(pushEmit_fields _ _).2.2.2.2.2]
  · rw [(pushEmit_fields _ _).2.2.2.2.2]

theorem pushEmit_finish_sync (c : List Nat) (s : St) :
    ((pushEmit c s).finished = s.finished ∧ (pushEmit c s).ended = s.ended) ∨
    ((pushEmit c s).finished = true ∧ (pushEmit c s).ended = true) := by
  unfold pushEmit earlyClose
  split
  · split
    · right
      exact ⟨rfl, rfl⟩
    · left
      exact ⟨(pushOut_fields _ _).2.2.2.2.2.2.1, (pushOut_fields _ _).2.2.2.2.2.2.2⟩
  · left
    exact ⟨(pushOut_fields _ _).2.2.2.2.2.2.1, (pushOut_fields _ _).2.2.2.2.2.2.2⟩

theorem zipPush_finish_sync (c : List Nat) (s : St) :
    ((zipPush c s).finished = s.finished ∧ (zipPush c s).ended = s.ended) ∨
    ((zipPush c s).finished = true ∧ (zipPush c s).ended = true) := by
  unfold zipPush
  split
  · left
    exact ⟨rfl, rfl⟩
  · dsimp only
    split
    · split
      · left
        exact ⟨rfl, rfl⟩
      · exact pushEmit_finish_sync _ _
    · exact pushEmit_finish_sync _ _

theorem streamData_general (crcFn : List Nat → Nat → Nat) (hit : Bool)
    (chunks : List (List Nat)) :
    ∀ (crc : Nat) (t : St), t.errored = false → t.finished = false →
    (streamData crcFn hit chunks crc t).1.errored = false ∧
    (streamData crcFn hit chunks crc t).1.centralDir = t.centralDir ∧
    (streamData crcFn hit chunks crc t).1.cache = t.cache ∧
    (streamData crcFn hit chunks crc t).1.numberOfFiles = t.numberOfFiles ∧
    (((streamData crcFn hit chunks crc t).2.2 = true ∧
      (streamData crcFn hit chunks crc t).1.finished = false ∧
      (streamData crcFn hit chunks crc t).1.ended = t.ended ∧
      (streamData crcFn hit chunks crc t).1.dataWritten =
        t.dataWritten + (chunks.map List.length).sum ∧
      (streamData crcFn hit chunks crc t).2.1 =
        (if hit then crc else chunks.foldl (fun a c => crcFn c a) crc)) ∨
     ((streamData crcFn hit chunks crc t).2.2 = false ∧
      (streamData crcFn hit chunks crc t).1.finished = true)) := by
  induction chunks with
  | nil =>
      intro crc t her hf
      refine ⟨her, rfl, rfl, rfl, Or.inl ⟨rfl, hf, rfl, rfl, by cases hit <;> rfl⟩⟩
  | cons c rest ih =>
      intro crc t her hf
      rw [streamData]
      have herr1 : (zipPush c t).errored = false := by
        rw [zipPush_errored]
        exact her
      have hflds := zipPush_fields c t
      have hdw := zipPush_dataWritten c t her
      rcases zipPush_finish_sync c t with ⟨hfin, hend⟩ | ⟨hfin, hend⟩
      · rw [if_neg (by rw [hfin]; simp [hf])]
        obtain ⟨a1, a2, a3, a4, a5⟩ :=
          ih (if hit then crc else crcFn c crc) (zipPush c t) herr1 (by rw [hfin]; exact hf)
        refine ⟨a1, by rw [a2, hflds.2.2.1], by rw [a3, hflds.2.1],
          by rw [a4, hflds.2.2.2], ?_⟩
        rcases a5 with ⟨b1, b2, b3, b4, b5⟩ | ⟨b1, b2⟩
        · left
          refine ⟨b1, b2, by rw [b3, hend], ?_, ?_⟩
          · rw [b4, hdw]
            simp
            omega
          · rw [b5]
            cases hit <;> simp
        · right
          exact ⟨b1, b2⟩
      · rw [if_pos (by rw [hfin])]
        exact ⟨herr1, hflds.2.2.1, hflds.2.1, hflds.2.2.2, Or.inr ⟨rfl, hfin⟩⟩

theorem cacheEquiv_entryCrc {c1 c2 : CrcCache} (h : cacheEquiv c1 c2)
    (crcFn : List Nat → Nat → Nat) (f : ZipSource) :
    entryCrc crcFn c1 f = entryCrc crcFn c2 f := by
  rw [entryCrc, entryCrc, cacheEquiv_hitB h f.sourcePath f.ts,
    cacheEquiv_crcInit h crcFn f.sourcePath f.ts]

theorem readFile_ranged_cases (crcFn : List Nat → Nat → Nat) (f : ZipSource) (r : St)
    (hrf : r.finished = false) (hre : r.errored = false) (hrd : r.ended = false)
    (hok : bufferOk (localHeader f 20) = true)
    (hsz : (f.data.map List.length).sum = f.size) :
    ((readFile crcFn f r).finished = true ∧ (readFile crcFn f r).errored = false ∧
     (readFile crcFn f r).centralDir = r.centralDir) ∨
    ((readFile crcFn f r).finished = false ∧ (readFile crcFn f r).errored = false ∧
     (readFile crcFn f r).ended = false ∧
     (readFile crcFn f r).dataWritten = r.dataWritten + 30 + f.path.length + f.size ∧
     (readFile crcFn f r).centralDir = r.centralDir ++
       [{ size := f.size, crc := entryCrc crcFn r.cache f, ts := f.ts
          pathAsBuffer := f.path, offset := r.dataWritten, version := 20
          extAttr := extAttrOf f.mode }] ∧
     (readFile crcFn f r).numberOfFiles = r.numberOfFiles + 1 ∧
     (((readFile crcFn f r).cache = r.cache ∧ hitB r.cache f.sourcePath f.ts = true) ∨
      ((readFile crcFn f r).cache =
        cacheWrite r.cache f.sourcePath f.ts (entryCrc crcFn r.cache f) ∧
       ¬(f.size = 0 ∧ hitB r.cache f.sourcePath f.ts = true)))) := by
  rw [readFile]
  rw [if_neg (by simp [hrf, hre])]
  dsimp only
  rw [zipPushPairs_of_buffer (buffer_eq_of_ok hok)
    (show ({ r with numberOfFiles := r.numberOfFiles + 1 } : St).errored = false from hre)]
  set s3 : St := zipPush f.path (zipPush (pairsBytes (localHeader f 20))
    { r with numberOfFiles := r.numberOfFiles + 1 }) with hs3
  have h2er : (zipPush (pairsBytes (localHeader f 20))
      ({ r with numberOfFiles := r.numberOfFiles + 1 } : St)).errored = false := by
    rw [zipPush_errored]
    exact hre
  have h3er : s3.errored = false := by
    rw [hs3, zipPush_errored, zipPush_errored]
    exact hre
  have h3dw : s3.dataWritten = r.dataWritten + 30 + f.path.length := by
    rw [hs3, zipPush_dataWritten _ _ h2er,
      zipPush_dataWritten _ _
        (show ({ r with numberOfFiles := r.numberOfFiles + 1 } : St).errored = false from hre),
      localHeader_bytes_length]
  have h3f : s3.cache = r.cache := by
    rw [hs3, (zipPush_fields _ _).2.1, (zipPush_fields _ _).2.1]
  have h3cd : s3.centralDir = r.centralDir := by
    rw [hs3, (zipPush_fields _ _).2.2.1, (zipPush_fields _ _).2.2.1]
  have h3nof : s3.numberOfFiles = r.numberOfFiles + 1 := by
    rw [hs3, (zipPush_fields _ _).2.2.2, (zipPush_fields _ _).2.2.2]
  have h3fin : (s3.finished = false ∧ s3.ended = false) ∨ s3.finished = true := by
    rw [hs3]
    rcases zipPush_finish_sync f.path (zipPush (pairsBytes (localHeader f 20))
        { r with numberOfFiles := r.numberOfFiles + 1 }) with ⟨h1, h2⟩ | ⟨h1, -⟩
    · rcases zipPush_finish_sync (pairsBytes (localHeader f 20))
          ({ r with numberOfFiles := r.numberOfFiles + 1 } : St) with ⟨g1, g2⟩ | ⟨g1, -⟩
      · left
        rw [h1, h2, g1, g2]
        exact ⟨hrf, hrd⟩
      · right
        rw [h1, g1]
    · right
      exact h1
  rcases h3fin with ⟨hfin, hend⟩ | hfin
  · rw [if_neg (by rw [hfin]; simp)]
    rw [if_neg (by rw [h3er]; simp)]
    rw [h3f]
    by_cases hskip : f.size ≤ s3.skip ∧ hitB r.cache f.sourcePath f.ts = true
    · rw [if_pos hskip]
      right
      dsimp only
      refine ⟨hfin, h3er, hend, ?_, ?_, h3nof, Or.inl ⟨rfl, hskip.2⟩⟩
      · rw [h3dw]
      · rw [h3cd, entryCrc, if_pos hskip.2]
    · rw [if_neg hskip]
      have hg := streamData_general crcFn (hitB r.cache f.sourcePath f.ts) f.data
        (crcInit crcFn r.cache f.sourcePath f.ts) s3 h3er hfin
      rcases hsd : streamData crcFn (hitB r.cache f.sourcePath f.ts) f.data
          (crcInit crcFn r.cache f.sourcePath f.ts) s3 with ⟨s4, crcF, endedB⟩
      rw [hsd] at hg
      dsimp only at hg ⊢
      obtain ⟨a1, a2, a3, a4, a5⟩ := hg
      rcases a5 with ⟨b1, b2, b3, b4, b5⟩ | ⟨b1, b2⟩
      · subst b1
        rw [if_pos rfl]
        right
        dsimp only
        have hcrcF : crcF = entryCrc crcFn r.cache f := by
          rw [b5, entryCrc]
          by_cases hh : hitB r.cache f.sourcePath f.ts = true
          · rw [if_pos hh, if_pos hh]
          · rw [if_neg hh, if_neg hh, crcInit_of_not_hit (by simpa using hh)]
        refine ⟨b2, a1, ?_, ?_, ?_, ?_, Or.inr ⟨?_, ?_⟩⟩
        · rw [b3]
          exact hend
        · rw [b4, h3dw, hsz]
        · rw [a2, h3cd, hcrcF]
        · rw [a4, h3nof]
        · rw [a3, h3f, hcrcF]
        · intro hcc
          exact hskip ⟨by rw [hcc.1]; exact Nat.zero_le _, hcc.2⟩
      · subst b1
        rw [if_neg (by simp)]
        left
        exact ⟨b2, a1, by rw [a2, h3cd]⟩
  · rw [if_pos hfin]
    left
    exact ⟨hfin, h3er, h3cd⟩

/-- Lockstep invariant between a ranged drain state `r` and the corresponding
unranged drain state `u`: either the ranged stream is still live and agrees
with the unranged one on the virtual byte counter, the central directory, the
file count and (up to lookup) the checksum cache, or the ranged stream has
early-closed and its central directory is a prefix of the unranged one. -/
def lockInv (r u : St) : Prop :=
  (r.finished = false ∧ r.errored = false ∧ r.ended = false ∧
   r.dataWritten = u.dataWritten ∧ r.centralDir = u.centralDir ∧
   r.numberOfFiles = u.numberOfFiles ∧ cacheEquiv r.cache u.cache) ∨
  (r.finished = true ∧ ∃ t, u.centralDir = r.centralDir ++ t)

theorem readFile_lockstep (crcFn : List Nat → Nat → Nat) (f : ZipSource)
    (hsz : (f.data.map List.length).sum = f.size) (r u : St)
    (hus : u.skip = 0) (hul : u.limit = none) (huf : u.finished = false)
    (hue : u.ended = false)
    (herr : (readFile crcFn f u).errored = false)
    (hinv : lockInv r u) :
    lockInv (readFile crcFn f r) (readFile crcFn f u) := by
  have hu0 : u.errored = false := readFile_errored_false herr
  obtain ⟨hru, hok⟩ := readFile_unranged crcFn f u hus hul huf hue hu0 herr
  unfold lockInv at hinv ⊢
  rcases hinv with ⟨hrf, hre, hrd, hdw, hcd, hnf, hce⟩ | ⟨hrf, t, ht⟩
  · rcases readFile_ranged_cases crcFn f r hrf hre hrd hok hsz with
      ⟨c1, c2, c3⟩ | ⟨c1, c2, c3, c4, c5, c6, c7⟩
    · right
      refine ⟨c1, [{ size := f.size, crc := entryCrc crcFn u.cache f, ts := f.ts
                     pathAsBuffer := f.path, offset := u.dataWritten, version := 20
                     extAttr := extAttrOf f.mode }], ?_⟩
      rw [hru, c3, hcd]
    · left
      refine ⟨c1, c2, c3, ?_, ?_, ?_, ?_⟩
      · rw [c4, hru]
        dsimp only
        rw [hdw, hsz]
        by_cases hc : f.size = 0 ∧ hitB u.cache f.sourcePath f.ts = true
        · rw [if_pos hc, hc.1]
        · rw [if_neg hc]
      · rw [c5, hru]
        dsimp only
        rw [hcd, hdw, cacheEquiv_entryCrc hce crcFn f]
      · rw [c6, hru]
        dsimp only
        rw [hnf]
      · rw [hru]
        dsimp only
        rcases c7 with ⟨e1, e2⟩ | ⟨e1, e2⟩
        · rw [e1]
          by_cases hzc : f.size = 0 ∧ hitB u.cache f.sourcePath f.ts = true
          · rw [nextCache, if_pos hzc]
            exact hce
          · rw [nextCache, if_neg hzc]
            have hitu : hitB u.cache f.sourcePath f.ts = true := by
              rw [← cacheEquiv_hitB hce]
              exact e2
            rw [entryCrc, if_pos hitu]
            exact cacheEquiv_hit_write hce crcFn f.sourcePath f.ts e2
        · rw [e1]
          have hzc : ¬(f.size = 0 ∧ hitB u.cache f.sourcePath f.ts = true) := by
            rw [← cacheEquiv_hitB hce]
            exact e2
          rw [nextCache, if_neg hzc, cacheEquiv_entryCrc hce crcFn f]
          exact cacheEquiv_write hce f.sourcePath f.ts _
  · rw [readFile_of_finished_or_errored crcFn f (Or.inl hrf), hru]
    right
    refine ⟨hrf, t ++ [{ size := f.size, crc := entryCrc crcFn u.cache f, ts := f.ts
                         pathAsBuffer := f.path, offset := u.dataWritten, version := 20
                         extAttr := extAttrOf f.mode }], ?_⟩
    dsimp only
    rw [ht, List.append_assoc]

theorem drainFiles_lockstep (crcFn : List Nat → Nat → Nat) (files : List ZipSource) :
    ∀ (r u : St),
    (∀ f ∈ files, (f.data.map List.length).sum = f.size) →
    u.skip = 0 → u.limit = none → u.finished = false → u.ended = false →
    (drainFiles crcFn files u).errored = false →
    lockInv r u →
    lockInv (drainFiles crcFn files r) (drainFiles crcFn files u) := by
  induction files with
  | nil =>
      intro r u _ _ _ _ _ _ hinv
      exact hinv
  | cons f rest ih =>
      intro r u hsz hus hul huf hue herr hinv
      rw [drainFiles] at herr
      have herr1 : (readFile crcFn f u).errored = false := drainFiles_errored_false herr
      have hstep := readFile_lockstep crcFn f (hsz f (List.mem_cons_self f rest)) r u
        hus hul huf hue herr1 hinv
      obtain ⟨hru, -⟩ := readFile_unranged crcFn f u hus hul huf hue
        (readFile_errored_false herr1) herr1
      rw [drainFiles, drainFiles]
      refine ih (readFile crcFn f r) (readFile crcFn f u)
        (fun g hg => hsz g (List.mem_cons_of_mem f hg)) ?_ ?_ ?_ ?_ herr hstep
      · rw [hru]
        exact hus
      · rw [hru]
        exact hul
      · rw [hru]
        exact huf
      · rw [hru]
        exact hue

/-- C9: `_push` advances the running byte counter `dataWritten` by the full
length of every chunk before any range skipping or truncation is applied (and
the cache-skip branch advances it by the entry's full size), so the
local-header offsets recorded in the central directory, and the central
directory's own starting offset, denote positions in the virtual unranged
stream: for any range configuration the ranged drain records exactly a prefix
of the unranged drain's central directory entries (offsets included), and if
the ranged stream has not early-closed by the end of the drain, its byte
counter (the central directory's starting offset) and its whole central
directory coincide with the unranged ones.  Hypotheses: the advertised sizes
are accurate and the unranged encode is fault-free. -/
theorem claim_C9 (crcFn : List Nat → Nat → Nat) (cache0 : CrcCache)
    (files : List ZipSource) (start stop : Nat)
    (hsz : ∀ f ∈ files, (f.data.map List.length).sum = f.size)
    (herr : (drainFiles crcFn files (initSt cache0)).errored = false) :
    (∀ (c : List Nat) (t : St), t.errored = false →
       (zipPush c t).dataWritten = t.dataWritten + c.length) ∧
    (∃ tail, (drainFiles crcFn files (initSt cache0)).centralDir =
       (drainFiles crcFn files (applyRange start stop (initSt cache0))).centralDir ++ tail) ∧
    ((drainFiles crcFn files (applyRange start stop (initSt cache0))).finished = false →
      (drainFiles crcFn files (applyRange start stop (initSt cache0))).dataWritten =
        (drainFiles crcFn files (initSt cache0)).dataWritten ∧
      (drainFiles crcFn files (applyRange start stop (initSt cache0))).centralDir =
        (drainFiles crcFn files (initSt cache0)).centralDir) := by
  have h0 : lockInv (applyRange start stop (initSt cache0)) (initSt cache0) := by
    unfold lockInv
    by_cases hr : stop < start
    · rw [applyRange, if_pos hr]
      right
      exact ⟨rfl, [], by simp [initSt, earlyClose]⟩
    · rw [applyRange, if_neg hr]
      left
      exact ⟨rfl, rfl, rfl, rfl, rfl, rfl, cacheEquiv_refl _⟩
  have hmain := drainFiles_lockstep crcFn files (applyRange start stop (initSt cache0))
    (initSt cache0) hsz rfl rfl rfl rfl herr h0
  unfold lockInv at hmain
  refine ⟨fun c t ht => zipPush_dataWritten c t ht, ?_⟩
  rcases hmain with ⟨hf2, -, -, hdw, hcd, -, -⟩ | ⟨hf, t, ht⟩
  · exact ⟨⟨[], by rw [hcd]; simp⟩, fun _ => ⟨hdw, hcd⟩⟩
  · exact ⟨⟨t, ht⟩, fun hnf => absurd hf (by simp [hnf])⟩

theorem claim_C9_witness :
    ((∀ f ∈ [ZipSource.mk [97] none [[7]] 1 ⟨2020, 0, 1, 0, 0, 0, 0⟩ 0],
        (f.data.map List.length).sum = f.size) ∧
     (drainFiles (fun _ a => a) [ZipSource.mk [97] none [[7]] 1 ⟨2020, 0, 1, 0, 0, 0, 0⟩ 0]
        (initSt [])).errored = false) ∧
    ((∀ (c : List Nat) (t : St), t.errored = false →
        (zipPush c t).dataWritten = t.dataWritten + c.length) ∧
     (∃ tail, (drainFiles (fun _ a => a)
          [ZipSource.mk [97] none [[7]] 1 ⟨2020, 0, 1, 0, 0, 0, 0⟩ 0] (initSt [])).centralDir =
        (drainFiles (fun _ a => a) [ZipSource.mk [97] none [[7]] 1 ⟨2020, 0, 1, 0, 0, 0, 0⟩ 0]
          (applyRange 0 5 (initSt []))).centralDir ++ tail) ∧
     ((drainFiles (fun _ a => a) [ZipSource.mk [97] none [[7]] 1 ⟨2020, 0, 1, 0, 0, 0, 0⟩ 0]
          (applyRange 0 5 (initSt []))).finished = false →
       (drainFiles (fun _ a => a) [ZipSource.mk [97] none [[7]] 1 ⟨2020, 0, 1, 0, 0, 0, 0⟩ 0]
          (applyRange 0 5 (initSt []))).dataWritten =
        (drainFiles (fun _ a => a) [ZipSource.mk [97] none [[7]] 1 ⟨2020, 0, 1, 0, 0, 0, 0⟩ 0]
          (initSt [])).dataWritten ∧
       (drainFiles (fun _ a => a) [ZipSource.mk [97] none [[7]] 1 ⟨2020, 0, 1, 0, 0, 0, 0⟩ 0]
          (applyRange 0 5 (initSt []))).centralDir =
        (drainFiles (fun _ a => a) [ZipSource.mk [97] none [[7]] 1 ⟨2020, 0, 1, 0, 0, 0, 0⟩ 0]
          (initSt [])).centralDir)) :=
  ⟨⟨by decide, by decide⟩,
   claim_C9 (fun _ a => a) [] [ZipSource.mk [97] none [[7]] 1 ⟨2020, 0, 1, 0, 0, 0, 0⟩ 0] 0 5
     (by decide) (by decide)⟩
